import Mathlib

/-!
# mark.js website generator (`generate-html.js`)

A shallow embedding of the reimplementable logic of `src/generate-html.js`:
the table-of-contents comparator `sorter` (lines 105-135) with the preparation
of the collections configuration (lines 136-141), the Handlebars helpers
(lines 44-88), the table renderer (lines 160-173) and the build callback
(lines 189-209), followed by the properties established about them.

Conventions of the embedding.

* A call either completes normally with a value or completes abruptly with a
  thrown exception; this is `Except JsError α`.
* ECMAScript strings are sequences of UTF-16 code units.  They are embedded as
  Lean strings, i.e. as the well-formed ones (sequences of Unicode scalar
  values).  Where a code-unit count is observable (`length`, `indexOf`) it is
  computed from the scalar values.
* Numbers are embedded on the integer-valued doubles together with `NaN` and
  the two infinities (`JsNum`); every arithmetic step rounds to the nearest
  double, ties to even.
-/

deriving instance DecidableEq for Except

namespace GenerateHtml

/-! ## Abrupt completions -/

/-- Exceptions the script can raise.  Every one met in the modelled code is a
`TypeError`. -/
inductive JsError where
  | typeError
  deriving DecidableEq, Repr

/-! ## The TOC sorter (lines 105-135) -/

/-- A navigation entry as seen by the comparator: it reads `title` and nothing
else.  `none` is an entry without a `title` property (`one.title` evaluates to
`undefined`). -/
structure Entry where
  title : Option String
  deriving DecidableEq, Repr

/-- ECMAScript `ToBoolean` on the value of `one.title`: `undefined` and the
empty string are falsy, every other string is truthy. -/
def truthy : Option String → Bool
  | none => false
  | some s => !s.data.isEmpty

/-- Scan of `Array.prototype.indexOf`: `k` is the index of the head of the
remaining list; elements are compared with strict equality, so `undefined`
equals no string. -/
def indexOfFrom (x : Option String) : List String → Nat → Int
  | [], _ => -1
  | y :: ys, k => if some y = x then (k : Int) else indexOfFrom x ys (k + 1)

/-- The call `order.indexOf(x)`: the first index holding `x`, or `-1`. -/
def indexOf (order : List String) (x : Option String) : Int :=
  indexOfFrom x order 0

/-- ECMAScript `ToInt32` on an integer. -/
def toInt32 (i : Int) : Int :=
  let m := i % 2 ^ 32
  if 2 ^ 31 ≤ m then m - 2 ^ 32 else m

/-- The operator `~`: bitwise NOT of the 32-bit signed value. -/
def bitNot (i : Int) : Int := -(toInt32 i) - 1

/-- The comparator returned by `sorter(order)` applied to `one` and `two`
(lines 105-135).  `order = order || []` is `Option.getD`.

Line 127, `a = a.toLowerCase()`, assigns to the binding `a` that line 108
declares with `const`: the right-hand side is evaluated and the assignment then
throws a `TypeError` ("Assignment to constant variable").  Control therefore
never reaches lines 128-133. -/
def sorter (order : Option (List String)) (one two : Entry) : Except JsError Int :=
  let order := order.getD []
  let a := one.title
  let b := two.title
  if !truthy a && !truthy b then .ok 0
  else if !truthy a then .ok 1
  else if !truthy b then .ok (-1)
  else
    let i := indexOf order a
    let j := indexOf order b
    if bitNot i ≠ 0 ∧ bitNot j ≠ 0 then
      if i < j then .ok (-1)
      else if j < i then .ok 1
      else .ok 0
    else if bitNot i ≠ 0 then .ok (-1)
    else if bitNot j ≠ 0 then .ok 1
    else .error .typeError

/-! ### Sorting with a comparator that may throw

`Array.prototype.sort(comparefn)` is applied to the entries by the collections
plug-in.  ECMAScript leaves the sequence of comparisons to the engine and
requires an exception of `comparefn` to end the sort with that exception.  The
engine is embedded as a stable insertion sort. -/

/-- Insert `x` into the sorted list: before the first element that `x` precedes
(`cmp x y < 0`). -/
def insertBy {α : Type} (cmp : α → α → Except JsError Int) (x : α) :
    List α → Except JsError (List α)
  | [] => .ok [x]
  | y :: ys =>
    match cmp x y with
    | .error e => .error e
    | .ok c =>
      if c < 0 then .ok (x :: y :: ys)
      else
        match insertBy cmp x ys with
        | .error e => .error e
        | .ok r => .ok (y :: r)

/-- Insertion sort of the elements of `l` into the sorted accumulator `acc`. -/
def sortInto {α : Type} (cmp : α → α → Except JsError Int) :
    List α → List α → Except JsError (List α)
  | [], acc => .ok acc
  | x :: xs, acc =>
    match insertBy cmp x acc with
    | .error e => .error e
    | .ok acc1 => sortInto cmp xs acc1

/-- The call `entries.sort(cmp)`. -/
def sort {α : Type} (cmp : α → α → Except JsError Int) (l : List α) :
    Except JsError (List α) :=
  sortInto cmp l []

/-- Entries with the given titles. -/
def titled (ts : List String) : List Entry := ts.map (fun t => ⟨some t⟩)

/-! ## Values handed to the template helpers -/

/-- Numbers: `NaN`, the two infinities, and the finite doubles of integer
value, `int z` being the double of value `z` (negative zero is identified with
zero, which no helper distinguishes).  Fractional numbers are outside the
embedding. -/
inductive JsNum where
  | nan
  | inf (negative : Bool)
  | int (z : Int)
  deriving DecidableEq, Repr

/-- Values a template can pass to a helper: the primitives, arrays, and plain
objects.  The values are data, as read from JSON or front matter: no property
holds a function.  Of a plain object the helpers observe two things: the value
of its `heading` property (`undefined` when it has none), and whether it owns a
property named `toString`, which then shadows `Object.prototype.toString` with
a value that cannot be called.  Plain objects owning a `length` property are
outside the embedding: `ifArticlesWithHeading` alone reads that property, and
the other helpers treat such an object like any other plain object. -/
inductive JsValue where
  | undefined
  | null
  | bool (b : Bool)
  | num (n : JsNum)
  | str (s : String)
  | arr (elems : List JsValue)
  | obj (heading : JsValue) (ownsToString : Bool)
  deriving Repr

/-- The block a block helper renders and returns: `fn` for the result of
`options.fn(this)`, `inverse` for the result of `options.inverse(this)`. -/
inductive Rendered where
  | fn
  | inverse
  deriving DecidableEq, Repr

/-! ### Number arithmetic -/

/-- Number of binary digits of `n`, by at most `fuel` halvings. -/
def bitLen : Nat → Nat → Nat
  | 0, _ => 0
  | fuel + 1, n => if n = 0 then 0 else 1 + bitLen fuel (n / 2)

/-- Nearest natural number with a 53-bit significand, ties to even. -/
def roundNat (n : Nat) : Nat :=
  let b := bitLen n n
  if b ≤ 53 then n
  else
    let sh := b - 53
    let q := n / 2 ^ sh
    let r := n % 2 ^ sh
    let half := 2 ^ (sh - 1)
    let q1 := if half < r ∨ (r = half ∧ q % 2 = 1) then q + 1 else q
    q1 * 2 ^ sh

/-- The Number for a mathematical integer: rounded to the nearest double,
overflowing to an infinity from `2 ^ 1024` on (more than 1024 binary digits). -/
def ofInt (z : Int) : JsNum :=
  let m := roundNat z.natAbs
  if 1024 < bitLen m m then .inf (decide (z < 0))
  else .int (if z < 0 then -(m : Int) else (m : Int))

/-- The Number `x + 1`. -/
def add1 : JsNum → JsNum
  | .nan => .nan
  | .inf s => .inf s
  | .int z => ofInt (z + 1)

/-! ### Character classes and strings -/

/-- The class `\w`: `[A-Za-z0-9_]`. -/
def isWordChar (c : Char) : Bool :=
  let n := c.toNat
  (65 ≤ n && n ≤ 90) || (97 ≤ n && n ≤ 122) || (48 ≤ n && n ≤ 57) || n == 95

/-- The class `\s`: ECMAScript white space and line terminators. -/
def isWhiteSpace (c : Char) : Bool :=
  let n := c.toNat
  (9 ≤ n && n ≤ 13) || n == 32 || n == 0xA0 || n == 0x1680 ||
    (0x2000 ≤ n && n ≤ 0x200A) || n == 0x2028 || n == 0x2029 || n == 0x202F ||
    n == 0x205F || n == 0x3000 || n == 0xFEFF

/-- Number of UTF-16 code units of a character. -/
def codeUnits (c : Char) : Nat := if c.toNat < 65536 then 1 else 2

/-- The `length` of a string: its number of UTF-16 code units. -/
def utf16Length : List Char → Nat
  | [] => 0
  | c :: cs => codeUnits c + utf16Length cs

/-- The call `s.replace(re, rep)` for a global regular expression `re` that is
a single character class `cls`, with a replacement free of `$` patterns: each
matching character is replaced, every other one is copied. -/
def replaceAll (cls : Char → Bool) (rep : List Char) : List Char → List Char
  | [] => []
  | c :: cs => if cls c then rep ++ replaceAll cls rep cs else c :: replaceAll cls rep cs

/-- The method `toLowerCase` on the characters `A`-`Z`; other characters are
left as they are.  (ECMAScript also maps non-ASCII letters; `anchor` applies
the method to word characters and `-` only.) -/
def lowerChar (c : Char) : Char :=
  if 65 ≤ c.toNat ∧ c.toNat ≤ 90 then Char.ofNat (c.toNat + 32) else c

/-- The call `s.toLowerCase()`, see `lowerChar`. -/
def toLowerCase (s : List Char) : List Char := s.map lowerChar

/-- The scan of `String.prototype.indexOf`: `k` is the code-unit index of the
head of the remaining haystack. -/
def indexOfStrFrom (patt : List Char) : List Char → Nat → Int
  | [], k => if patt.isEmpty then (k : Int) else -1
  | c :: cs, k =>
    if patt.isPrefixOf (c :: cs) then (k : Int)
    else indexOfStrFrom patt cs (k + codeUnits c)

/-- The call `s.indexOf(patt)`: the first index at which `patt` occurs in `s`,
or `-1`. -/
def indexOfStr (s patt : List Char) : Int := indexOfStrFrom patt s 0

/-! ### Conversions -/

/-- The decimal digit `d`. -/
def digitChar (d : Nat) : Char := Char.ofNat (48 + d)

/-- Decimal digits of `n`, most significant first, pushed in front of `acc`. -/
def decimalAux : Nat → Nat → List Char → List Char
  | 0, _, acc => acc
  | fuel + 1, n, acc =>
    let acc1 := digitChar (n % 10) :: acc
    if n / 10 = 0 then acc1 else decimalAux fuel (n / 10) acc1

/-- The decimal numeral of `n`. -/
def decimal (n : Nat) : List Char := decimalAux (n + 1) n []

/-- Distance between two natural numbers. -/
def dist (a b : Nat) : Nat := if a ≤ b then b - a else a - b

/-- The decimals `s * 10 ^ (n - k)` with a `k`-digit `s` that the Number `m`
(a double of `d` decimal digits) round-trips from, as pairs `(s, n)`: the two
`k`-digit neighbours of `m` and, for one digit, the next power of ten. -/
def candidates (m d k : Nat) : List (Nat × Nat) :=
  let s := m / 10 ^ (d - k)
  ((s, d) :: ((if s + 1 < 10 ^ k then [(s + 1, d)] else []) ++
      (if k = 1 then [(1, d + 1)] else []))).filter
    (fun c => roundNat (c.1 * 10 ^ (c.2 - k)) = m)

/-- The candidate nearer to `m`; of two at the same distance, the one with the
even `s`. -/
def closer (m k : Nat) (a b : Nat × Nat) : Nat × Nat :=
  let da := dist m (a.1 * 10 ^ (a.2 - k))
  let db := dist m (b.1 * 10 ^ (b.2 - k))
  if db < da ∨ (db = da ∧ b.1 % 2 = 0) then b else a

/-- The integers `s`, `n`, `k` of `Number::toString`: `k` is the least number
of digits from `k` on for which a candidate exists, `s` the candidate nearest
to `m`. -/
def shortest (m d : Nat) : Nat → Nat → Option (Nat × Nat × Nat)
  | 0, _ => none
  | fuel + 1, k =>
    match candidates m d k with
    | [] => shortest m d fuel (k + 1)
    | c :: cs =>
      let b := cs.foldl (closer m k) c
      some (b.1, b.2, k)

/-- The digits `Number::toString` prints for `s`, `n`, `k` with `k ≤ n`: the
digits of `s` and `n - k` zeros up to 21 digits, the exponent form beyond. -/
def render (s n k : Nat) : List Char :=
  if n ≤ 21 then decimal s ++ List.replicate (n - k) '0'
  else
    match decimal s with
    | [] => []
    | c :: cs => (if k = 1 then [c] else c :: '.' :: cs) ++ 'e' :: '+' :: decimal (n - 1)

/-- The operation `Number::toString` (radix 10) on a natural number `m`.
Below `2 ^ 53` every integer is a Number and the only decimal that round-trips
is the integer itself, so all its digits are printed.  From `2 ^ 53` on the
shortest round-trip digits are printed (at most 17; of several candidates the
nearest, as engines do), for instance `1152921504606847000` for `2 ^ 60` and
`1e+21` for `10 ^ 21`.  An `m` that is no double stands for the double nearest
to it, the value its literal denotes. -/
def natToString (m : Nat) : List Char :=
  if m < 2 ^ 53 then decimal m
  else
    let v := roundNat m
    let d := (decimal v).length
    match shortest v d (min d 17) 1 with
    | some (s, n, k) => render s n k
    | none => decimal v

/-- The operation `Number::toString` (radix 10). -/
def numToString : JsNum → List Char
  | .nan => "NaN".data
  | .inf false => "Infinity".data
  | .inf true => "-Infinity".data
  | .int z => if z < 0 then '-' :: natToString z.natAbs else natToString z.natAbs

/-- The strings `ss` joined with the separator `,`. -/
def joinWithComma : List (List Char) → List Char
  | [] => []
  | [s] => s
  | s :: t :: r => s ++ ',' :: joinWithComma (t :: r)

mutual
/-- The abstract operation `ToString`.  On a plain object it calls the
`toString` method; a `toString` property of the object itself holds data and
cannot be called, and `valueOf` returns the object, so the conversion then
throws a `TypeError`.  On an array it is `Array.prototype.join` with the
separator `,`. -/
def toStr : JsValue → Except JsError (List Char)
  | .undefined => .ok "undefined".data
  | .null => .ok "null".data
  | .bool true => .ok "true".data
  | .bool false => .ok "false".data
  | .num n => .ok (numToString n)
  | .str s => .ok s.data
  | .arr xs =>
    match elemStrs xs with
    | .error e => .error e
    | .ok ss => .ok (joinWithComma ss)
  | .obj _ owns => if owns then .error .typeError else .ok "[object Object]".data
/-- The strings `Array.prototype.join` makes of the elements, converted from
left to right: `undefined` and `null` give the empty string, every other
element its `ToString`. -/
def elemStrs : List JsValue → Except JsError (List (List Char))
  | [] => .ok []
  | x :: r =>
    match (match x with
      | .undefined => Except.ok []
      | .null => Except.ok []
      | v => toStr v) with
    | .error e => .error e
    | .ok s =>
      match elemStrs r with
      | .error e => .error e
      | .ok t => .ok (s :: t)
end

/-- The method call `v.toString()`: a `TypeError` on `undefined` and `null`,
which have no properties, and on a plain object whose own `toString` is no
function; otherwise the method the value inherits, which yields `ToString v`. -/
def toStringMethod : JsValue → Except JsError (List Char)
  | .undefined => .error .typeError
  | .null => .error .typeError
  | v => toStr v

mutual
/-- Whether stringifying the value meets a plain object that owns a `toString`
property: the value is such an object, or an array holding one at some
depth. -/
def meetsToStringOwner : JsValue → Bool
  | .obj _ owns => owns
  | .arr xs => anyMeetsToStringOwner xs
  | _ => false
/-- Whether some element of the list meets such an object. -/
def anyMeetsToStringOwner : List JsValue → Bool
  | [] => false
  | x :: r => meetsToStringOwner x || anyMeetsToStringOwner r
end

/-- The test `v !== false`. -/
def notFalse : JsValue → Bool
  | .bool false => false
  | _ => true

/-! ## The Handlebars helpers (lines 44-88) -/

/-- Helper `contains` (lines 44-49): `str.toString()` and `patt.toString()` are
evaluated in this order, and the block is chosen by `indexOf(...) !== -1`. -/
def contains (str patt : JsValue) : Except JsError Rendered :=
  match toStringMethod str with
  | .error e => .error e
  | .ok s =>
    match toStringMethod patt with
    | .error e => .error e
    | .ok p => if indexOfStr s p ≠ -1 then .ok .fn else .ok .inverse

/-- Value of the digit `c` in a radix up to 36, if it is a letter or digit. -/
def digitValue (c : Char) : Option Nat :=
  let n := c.toNat
  if 48 ≤ n ∧ n ≤ 57 then some (n - 48)
  else if 97 ≤ n ∧ n ≤ 122 then some (n - 87)
  else if 65 ≤ n ∧ n ≤ 90 then some (n - 55)
  else none

/-- Whether `c` is a digit of the radix `r`. -/
def isRadixDigit (r : Nat) (c : Char) : Bool :=
  match digitValue c with
  | some d => decide (d < r)
  | none => false

/-- Value of a digit string in radix `r`. -/
def digitsValue (r : Nat) (ds : List Char) : Nat :=
  ds.foldl (fun acc c => acc * r + (digitValue c).getD 0) 0

/-- The call `parseInt(string)` with no radix, on the string already
converted: leading white space is skipped, a sign is read, a `0x` or `0X`
prefix selects radix 16 (radix 10 otherwise), and the longest prefix of digits
is evaluated; `NaN` if that prefix is empty. -/
def parseIntStr (input : List Char) : JsNum :=
  let s := input.dropWhile isWhiteSpace
  let negative := s.head? = some '-'
  let s1 := if s.head? = some '-' ∨ s.head? = some '+' then s.tail else s
  let hex := match s1 with
    | '0' :: 'x' :: _ => true
    | '0' :: 'X' :: _ => true
    | _ => false
  let r := if hex then 16 else 10
  let s2 := if hex then s1.drop 2 else s1
  let z := s2.takeWhile (isRadixDigit r)
  if z.isEmpty then .nan
  else
    let v : Int := (digitsValue r z : Nat)
    ofInt (if negative then -v else v)

/-- The call `parseInt(value)`: `ToString` of the argument, which may throw,
then `parseIntStr`. -/
def parseInt (value : JsValue) : Except JsError JsNum :=
  match toStr value with
  | .error e => .error e
  | .ok s => .ok (parseIntStr s)

/-- Helper `inc` (lines 51-53): `parseInt(value) + 1`. -/
def inc (value : JsValue) : Except JsError JsValue :=
  match parseInt value with
  | .error e => .error e
  | .ok n => .ok (.num (add1 n))

/-- Helper `ifNotFalse` (lines 59-64). -/
def ifNotFalse (value : JsValue) : Except JsError Rendered :=
  if notFalse value then .ok .fn else .ok .inverse

/-- The property read `stack.length`: a `TypeError` on `undefined` and `null`;
the length of a string or array; `undefined` (here `none`) on the other
values, which have no such property. -/
def getLength : JsValue → Except JsError (Option Nat)
  | .undefined => .error .typeError
  | .null => .error .typeError
  | .str s => .ok (some (utf16Length s.data))
  | .arr xs => .ok (some xs.length)
  | _ => .ok none

/-- The read `stack[i]["heading"]` for `i` below `stack.length`.  An element
of a string is a string, which has no `heading`; an array element that is
`undefined` or `null` has no properties at all, so the read throws; of the
other elements only a plain object can carry a `heading`. -/
def headingAt (stack : JsValue) (i : Nat) : Except JsError JsValue :=
  match stack with
  | .arr xs =>
    match xs.getD i .undefined with
    | .undefined => .error .typeError
    | .null => .error .typeError
    | .obj h _ => .ok h
    | _ => .ok .undefined
  | _ => .ok .undefined

/-- The loop of lines 67-71 with `n` iterations left, at index `i`; falling out
of the loop reaches line 72. -/
def headingLoop (stack : JsValue) : Nat → Nat → Except JsError Rendered
  | 0, _ => .ok .inverse
  | n + 1, i =>
    match headingAt stack i with
    | .error e => .error e
    | .ok h => if notFalse h then .ok .fn else headingLoop stack n (i + 1)

/-- Helper `ifArticlesWithHeading` (lines 66-73).  With `len` undefined the
loop condition `0 < len` is false and the loop body never runs. -/
def ifArticlesWithHeading (stack : JsValue) : Except JsError Rendered :=
  match getLength stack with
  | .error e => .error e
  | .ok none => .ok .inverse
  | .ok (some len) => headingLoop stack len 0

/-- The body of `anchor` on a string (line 76).  The flag `i` changes neither
class: both are closed under the case folding that the flag applies. -/
def anchorStr (s : String) : String :=
  ⟨toLowerCase
    (replaceAll isWhiteSpace ['-']
      (replaceAll (fun c => !(isWordChar c || isWhiteSpace c)) [] s.data))⟩

/-- Helper `anchor` (lines 75-77): `str.replace` exists on strings only, so the
call throws a `TypeError` on every other value. -/
def anchor : JsValue → Except JsError String
  | .str s => .ok (anchorStr s)
  | _ => .error .typeError

/-- The counter of line 79 at start-up. -/
def initialCounter : JsNum := .int 0

/-- Helper `resetCounter` (lines 80-82) on the counter state: returns
`undefined` and the new state. -/
def resetCounter (_counter : JsNum) : Except JsError (JsValue × JsNum) :=
  .ok (.undefined, .int 0)

/-- Helper `incrementCounter` (lines 83-85): `++counter`. -/
def incrementCounter (counter : JsNum) : Except JsError (JsValue × JsNum) :=
  .ok (.num (add1 counter), add1 counter)

/-- Helper `getCounter` (lines 86-88). -/
def getCounter (counter : JsNum) : Except JsError (JsValue × JsNum) :=
  .ok (.num counter, counter)

/-! ## The anchor transformation as the specification words it -/

/-- Replace each run of consecutive white space by one `-`; `inRun` tells
whether the previous character was white space. -/
def collapseRuns : Bool → List Char → List Char
  | _, [] => []
  | inRun, c :: cs =>
    if isWhiteSpace c then
      if inRun then collapseRuns true cs else '-' :: collapseRuns true cs
    else c :: collapseRuns false cs

/-- The anchor of a string in the words of the specification: characters that
are neither word characters nor white space are removed, then each run of
consecutive white space is replaced by a single `-`, then the result is
lowercased. -/
def anchorSpec (s : String) : String :=
  ⟨toLowerCase
    (collapseRuns false (s.data.filter (fun c => isWordChar c || isWhiteSpace c)))⟩

/-- The characters an anchor may hold: a lowercase ASCII letter, an ASCII
digit, `_` or `-`. -/
def isAnchorChar (c : Char) : Bool :=
  let n := c.toNat
  (97 ≤ n && n ≤ 122) || (48 ≤ n && n ≤ 57) || n == 95 || n == 45

/-! ## Sequences of counter calls (lines 79-88) -/

/-- The three counter helpers a template can call. -/
inductive CounterCall where
  | resetCounter
  | incrementCounter
  | getCounter
  deriving DecidableEq, Repr

/-- One call of a counter helper on the counter state. -/
def callCounter : CounterCall → JsNum → Except JsError (JsValue × JsNum)
  | .resetCounter, c => resetCounter c
  | .incrementCounter, c => incrementCounter c
  | .getCounter, c => getCounter c

/-- The counter after the calls of `history`, made in order from the state
`c`. -/
def counterAfter : List CounterCall → JsNum → Except JsError JsNum
  | [], c => .ok c
  | k :: t, c =>
    match callCounter k c with
    | .error e => .error e
    | .ok (_, c1) => counterAfter t c1

/-- Number of `incrementCounter` calls of `history` since its most recent
`resetCounter`, or since its start (where the count stood at `k`) if it has
none. -/
def sinceReset : Nat → List CounterCall → Nat
  | k, [] => k
  | _, .resetCounter :: t => sinceReset 0 t
  | k, .incrementCounter :: t => sinceReset (k + 1) t
  | k, .getCounter :: t => sinceReset k t

/-! ## The table renderer (lines 160-173) -/

/-- The override `renderer.table` on a header and a body string. -/
def table (header body : String) : String :=
  "<div class=\"table-responsive\">"
    ++ "<table class=\"table table-bordered table-striped\">"
    ++ "<thead>"
    ++ header
    ++ "</thead>"
    ++ "<tbody>"
    ++ body
    ++ "</tbody>"
    ++ "</table>"
    ++ "</div>"

/-! ## The build callback (lines 189-209) -/

/-- The constant `targetDir` (line 23). -/
def targetDir : String := "./"

/-- The constant `buildDir` (line 24). -/
def buildDir : String := "build/tmp/"

/-- Observable actions of the build callback. -/
inductive Effect where
  | log (err : String)
  | del (patterns : String)
  | ncp (source destination : String)
  deriving DecidableEq, Repr

/-- Whether an action deletes or copies files. -/
def Effect.isFileOperation : Effect → Bool
  | .log _ => false
  | .del _ => true
  | .ncp _ _ => true

/-- The callback handed to `build` (lines 189-209), as the sequence of actions
it starts.  `err` is the error of the render (`none` when it succeeded);
`delFulfilled` tells whether the promise of the first `del` is fulfilled, so
that its `then` callback runs; `ncpErr` is the error `ncp` reports to its
callback. -/
def buildCallback (err : Option String) (delFulfilled : Bool) (ncpErr : Option String) :
    List Effect :=
  match err with
  | some e => [.log e]
  | none =>
    .del (buildDir ++ "*/**") ::
      (if delFulfilled then
        .ncp (buildDir ++ "/") (targetDir ++ "/") ::
          (match ncpErr with
            | some e => [.log e]
            | none => [.del (buildDir ++ "**")])
      else [])

/-! ## Preparation of the collections configuration (lines 104-141) -/

/-- A value of `toc.json` that is not an array. -/
inductive NonArray where
  | null
  | bool (b : Bool)
  | num (n : JsNum)
  | str (s : String)
  | object
  deriving Repr

/-- The property `sortBy` of a collection: absent, an array of titles, another
value of the configuration file, or a comparator function. -/
inductive SortBy where
  | absent
  | array (order : List String)
  | nonArray (v : NonArray)
  | comparator (cmp : Entry → Entry → Except JsError Int)

/-- A collection of the configuration: its `sortBy` and, in `rest`, all its
other fields. -/
structure Collection (ρ : Type) where
  sortBy : SortBy
  rest : ρ

/-- The body of the loop (lines 137-139) on one collection: `sortBy` is
assigned the comparator when `Array.isArray` holds of it. -/
def prepareCollection {ρ : Type} (c : Collection ρ) : Collection ρ :=
  match c.sortBy with
  | .array order => { c with sortBy := .comparator (sorter (some order)) }
  | _ => c

/-- The read `toc[item]`: the collection stored under the key. -/
def getItem {ρ : Type} (item : String) : List (String × Collection ρ) → Option (Collection ρ)
  | [] => none
  | (k, c) :: t => if k = item then some c else getItem item t

/-- In-place update of the collection stored under the key `item`. -/
def updateItem {ρ : Type} (item : String) (f : Collection ρ → Collection ρ) :
    List (String × Collection ρ) → List (String × Collection ρ)
  | [] => []
  | (k, c) :: t => if k = item then (k, f c) :: t else (k, c) :: updateItem item f t

/-- The loop `for (let item in toc)` over the listed keys. -/
def prepareLoop {ρ : Type} :
    List String → List (String × Collection ρ) → List (String × Collection ρ)
  | [], toc => toc
  | item :: items, toc => prepareLoop items (updateItem item prepareCollection toc)

/-- The configuration handed to the collections plug-in (lines 136-141): the
loop runs over the keys of `toc`. -/
def prepareToc {ρ : Type} (toc : List (String × Collection ρ)) :
    List (String × Collection ρ) :=
  prepareLoop (toc.map Prod.fst) toc

/-! ## Properties of the sorter -/

theorem truthy_some (s : String) : truthy (some s) = true ↔ s ≠ "" := by
  cases s with
  | mk l =>
    cases l with
    | nil => simp [truthy]
    | cons c cs =>
      simp only [truthy, List.isEmpty_cons, Bool.not_false, ne_eq, true_iff]
      intro h
      have h2 := congrArg String.data h
      simp at h2

theorem indexOfFrom_of_not_mem (x : Option String) (l : List String) (k : Nat)
    (h : ∀ y ∈ l, some y ≠ x) : indexOfFrom x l k = -1 := by
  induction l generalizing k with
  | nil => rfl
  | cons y ys ih =>
    have hy : some y ≠ x := h y (List.mem_cons_self _ _)
    simp only [indexOfFrom, if_neg hy]
    exact ih (k + 1) (fun z hz => h z (List.mem_cons_of_mem _ hz))

theorem indexOfFrom_of_mem (s : String) (l : List String) (k : Nat) (h : s ∈ l) :
    indexOfFrom (some s) l k = ((k + List.indexOf s l : Nat) : Int) := by
  induction l generalizing k with
  | nil => cases h
  | cons y ys ih =>
    by_cases hy : y = s
    · subst hy
      simp [indexOfFrom]
    · have hs : s ∈ ys := by
        rcases List.mem_cons.mp h with h1 | h1
        · exact absurd h1.symm hy
        · exact h1
      have hne : ¬ (some y = some s) := by simpa using hy
      simp only [indexOfFrom, if_neg hne]
      rw [ih (k + 1) hs, List.indexOf_cons_ne _ hy]
      congr 1
      omega

theorem indexOf_of_mem (order : List String) (s : String) (h : s ∈ order) :
    indexOf order (some s) = (List.indexOf s order : Int) := by
  unfold indexOf
  rw [indexOfFrom_of_mem s order 0 h]
  simp

theorem indexOf_of_not_mem (order : List String) (s : String) (h : s ∉ order) :
    indexOf order (some s) = -1 := by
  unfold indexOf
  apply indexOfFrom_of_not_mem
  intro y hy hys
  have : y = s := by simpa using hys
  exact h (this ▸ hy)

theorem indexOfFrom_range (x : Option String) (l : List String) (k : Nat) :
    indexOfFrom x l k = -1 ∨
      ((k : Int) ≤ indexOfFrom x l k ∧ indexOfFrom x l k < (k : Int) + l.length) := by
  induction l generalizing k with
  | nil => left; rfl
  | cons y ys ih =>
    by_cases hy : some y = x
    · right
      simp only [indexOfFrom, if_pos hy, List.length_cons]
      constructor <;> omega
    · simp only [indexOfFrom, if_neg hy, List.length_cons]
      rcases ih (k + 1) with h | ⟨h1, h2⟩
      · left; exact h
      · right
        constructor <;> push_cast at * <;> omega

theorem indexOf_range (order : List String) (x : Option String) :
    indexOf order x = -1 ∨ (0 ≤ indexOf order x ∧ indexOf order x < order.length) := by
  have h := indexOfFrom_range x order 0
  simpa [indexOf] using h

theorem bitNot_ne_zero_iff (i : Int) (h0 : -1 ≤ i) (h1 : i < 2 ^ 32 - 1) :
    bitNot i ≠ 0 ↔ i ≠ -1 := by
  unfold bitNot toInt32
  norm_num at h1 ⊢
  split <;> omega

theorem bitNot_indexOf (order : List String) (hlen : order.length < 2 ^ 32)
    (x : Option String) : bitNot (indexOf order x) ≠ 0 ↔ indexOf order x ≠ -1 := by
  apply bitNot_ne_zero_iff
  · rcases indexOf_range order x with h | ⟨h, _⟩ <;> omega
  · rcases indexOf_range order x with h | ⟨_, h⟩
    · rw [h]; norm_num
    · have : ((order.length : Nat) : Int) < 2 ^ 32 := by exact_mod_cast hlen
      omega

theorem sorter_of_truthy (order : List String) (hlen : order.length < 2 ^ 32)
    (a b : String) (ha : a ≠ "") (hb : b ≠ "") :
    sorter (some order) ⟨some a⟩ ⟨some b⟩ =
      if a ∈ order ∧ b ∈ order then
        (if List.indexOf a order < List.indexOf b order then .ok (-1)
         else if List.indexOf b order < List.indexOf a order then .ok 1
         else .ok 0)
      else if a ∈ order then .ok (-1)
      else if b ∈ order then .ok 1
      else .error .typeError := by
  have hta : truthy (some a) = true := (truthy_some a).2 ha
  have htb : truthy (some b) = true := (truthy_some b).2 hb
  have hia := bitNot_indexOf order hlen (some a)
  have hib := bitNot_indexOf order hlen (some b)
  simp only [sorter, Option.getD_some, hta, htb, Bool.not_true, Bool.and_self,
    Bool.false_eq_true, if_false, hia, hib]
  by_cases ma : a ∈ order <;> by_cases mb : b ∈ order
  · simp [indexOf_of_mem order a ma, indexOf_of_mem order b mb, ma, mb]
  · simp [indexOf_of_mem order a ma, indexOf_of_not_mem order b mb, ma, mb]
  · simp [indexOf_of_not_mem order a ma, indexOf_of_mem order b mb, ma, mb]
  · simp [indexOf_of_not_mem order a ma, indexOf_of_not_mem order b mb, ma, mb]

theorem sorter_before_iff (order : Option (List String))
    (hlen : (order.getD []).length < 2 ^ 32) (a b : Entry) :
    sorter order a b = .ok (-1) ↔
      truthy a.title = true ∧
        (truthy b.title = false ∨
          (indexOf (order.getD []) a.title ≠ -1 ∧
            (indexOf (order.getD []) b.title = -1 ∨
              indexOf (order.getD []) a.title < indexOf (order.getD []) b.title))) := by
  have hi := bitNot_indexOf (order.getD []) hlen
  simp only [sorter, hi]
  generalize indexOf (order.getD []) a.title = i
  generalize indexOf (order.getD []) b.title = j
  cases truthy a.title <;> cases truthy b.title <;> simp
  split_ifs <;> simp <;> omega

theorem sorter_equal_iff (order : Option (List String))
    (hlen : (order.getD []).length < 2 ^ 32) (a b : Entry) :
    sorter order a b = .ok 0 ↔
      (truthy a.title = false ∧ truthy b.title = false) ∨
        (truthy a.title = true ∧ truthy b.title = true ∧
          indexOf (order.getD []) a.title ≠ -1 ∧
          indexOf (order.getD []) a.title = indexOf (order.getD []) b.title) := by
  have hi := bitNot_indexOf (order.getD []) hlen
  simp only [sorter, hi]
  generalize indexOf (order.getD []) a.title = i
  generalize indexOf (order.getD []) b.title = j
  cases truthy a.title <;> cases truthy b.title <;> simp
  split_ifs <;> simp <;> omega

/-! ## The claims on the sorter -/

/-- C1 (fails on the code): with the ordering list `["Intro", "Usage"]` and two
entries titled `"Zeta"` and `"Alpha"`, neither of them named in the list, the
comparator does not return before, equal or after: it throws a `TypeError`. -/
theorem sorter_throws_when_both_unlisted :
    sorter (some ["Intro", "Usage"]) ⟨some "Zeta"⟩ ⟨some "Alpha"⟩ = .error .typeError := by
  decide

/-- C2 (fails on the code): sorting the entries titled `"Usage"`, `"Intro"`,
`".hidden"`, `"Zeta"` with the comparator for `["Intro", "Usage"]` does not
succeed: the sort ends with the `TypeError` the comparator throws on the pair
`".hidden"`, `"Zeta"`, whichever of the two is the first argument. -/
theorem sort_spec_example_throws :
    sort (sorter (some ["Intro", "Usage"])) (titled ["Usage", "Intro", ".hidden", "Zeta"])
        = .error .typeError ∧
      sorter (some ["Intro", "Usage"]) ⟨some ".hidden"⟩ ⟨some "Zeta"⟩ = .error .typeError ∧
      sorter (some ["Intro", "Usage"]) ⟨some "Zeta"⟩ ⟨some ".hidden"⟩ = .error .typeError := by
  decide

/-- C3 as stated fails: with the ordering list `[""]`, the present title `""`
occurs in the list and `"Intro"` does not, yet the entry titled `""` sorts
after the other one, not before. -/
theorem sorter_empty_title_listed_sorts_after :
    "" ∈ [""] ∧ "Intro" ∉ [""] ∧
      sorter (some [""]) ⟨some ""⟩ ⟨some "Intro"⟩ = .ok 1 ∧
      sorter (some [""]) ⟨some ""⟩ ⟨some "Intro"⟩ ≠ .ok (-1) := by
  decide

/-- C3 (amended): for every ordering list (a JavaScript array, so shorter than
`2 ^ 32`) and every two entries with non-empty titles `a` and `b`: if both occur
in the list the comparator returns before, equal or after according as the
first index of `a` is less than, equal to or greater than that of `b`; if only
`a` occurs it returns before; if only `b` occurs it returns after. -/
theorem sorter_listed (order : Option (List String))
    (hlen : (order.getD []).length < 2 ^ 32) (a b : String) (ha : a ≠ "") (hb : b ≠ "") :
    (a ∈ order.getD [] → b ∈ order.getD [] →
        sorter order ⟨some a⟩ ⟨some b⟩ =
          .ok (if List.indexOf a (order.getD []) < List.indexOf b (order.getD []) then -1
               else if List.indexOf a (order.getD []) = List.indexOf b (order.getD []) then 0
               else 1)) ∧
      (a ∈ order.getD [] → b ∉ order.getD [] → sorter order ⟨some a⟩ ⟨some b⟩ = .ok (-1)) ∧
      (a ∉ order.getD [] → b ∈ order.getD [] → sorter order ⟨some a⟩ ⟨some b⟩ = .ok 1) := by
  have h : sorter order ⟨some a⟩ ⟨some b⟩ = sorter (some (order.getD [])) ⟨some a⟩ ⟨some b⟩ := by
    cases order <;> rfl
  rw [h, sorter_of_truthy (order.getD []) hlen a b ha hb]
  refine ⟨fun ma mb => ?_, fun ma mb => ?_, fun ma mb => ?_⟩
  · simp only [ma, mb, and_self, if_true]
    split_ifs <;> first | rfl | omega
  · simp [ma, mb]
  · simp [ma, mb]

/-- Witness for the amended C3: the list `["Intro", "Usage"]` with the titles
`"Usage"` and `"Intro"`. -/
theorem sorter_listed_witness :
    ((some ["Intro", "Usage"] : Option (List String)).getD []).length < 2 ^ 32 ∧
      "Usage" ≠ "" ∧ "Intro" ≠ "" ∧
      "Usage" ∈ (some ["Intro", "Usage"] : Option (List String)).getD [] ∧
      "Intro" ∈ (some ["Intro", "Usage"] : Option (List String)).getD [] ∧
      sorter (some ["Intro", "Usage"]) ⟨some "Usage"⟩ ⟨some "Intro"⟩ = .ok 1 :=
  ⟨by decide, by decide, by decide, by decide, by decide,
    (sorter_listed (some ["Intro", "Usage"]) (by decide) "Usage" "Intro"
      (by decide) (by decide)).1 (by decide) (by decide)⟩

/-- C4 as stated fails: an entry without a title and an entry whose title is
the (present) empty string compare equal; the first is not put after the
second. -/
theorem sorter_absent_vs_empty_title :
    sorter (some ["Intro"]) ⟨none⟩ ⟨some ""⟩ = .ok 0 ∧
      sorter (some ["Intro"]) ⟨none⟩ ⟨some ""⟩ ≠ .ok 1 := by
  decide

/-- C4 (amended): for every ordering list, an entry without a title is put
after every entry whose title is a non-empty string, in both argument orders,
and two entries without a title compare equal. -/
theorem sorter_absent_title (order : Option (List String)) (b : String) (hb : b ≠ "") :
    sorter order ⟨none⟩ ⟨some b⟩ = .ok 1 ∧
      sorter order ⟨some b⟩ ⟨none⟩ = .ok (-1) ∧
      sorter order ⟨none⟩ ⟨none⟩ = .ok 0 := by
  have htb : truthy (some b) = true := (truthy_some b).2 hb
  have htn : truthy none = false := rfl
  simp only [sorter, htb, htn]
  simp

/-- Witness for the amended C4: the title `"Intro"`. -/
theorem sorter_absent_title_witness :
    "Intro" ≠ "" ∧
      (sorter (some ["Intro"]) ⟨none⟩ ⟨some "Intro"⟩ = .ok 1 ∧
        sorter (some ["Intro"]) ⟨some "Intro"⟩ ⟨none⟩ = .ok (-1) ∧
        sorter (some ["Intro"]) ⟨none⟩ ⟨none⟩ = .ok 0) :=
  ⟨by decide, sorter_absent_title (some ["Intro"]) "Intro" (by decide)⟩

/-- C5 (fails on the code): with the ordering list `["Intro"]`, the titles
`".hidden"` and `"Zeta"` are both present and unnamed, the first begins with
`.` and the second does not; the comparator returns neither after for
(`".hidden"`, `"Zeta"`) nor before for (`"Zeta"`, `".hidden"`): both calls
throw. -/
theorem sorter_dot_title_throws :
    sorter (some ["Intro"]) ⟨some ".hidden"⟩ ⟨some "Zeta"⟩ = .error .typeError ∧
      sorter (some ["Intro"]) ⟨some "Zeta"⟩ ⟨some ".hidden"⟩ = .error .typeError := by
  decide

/-- C6 (fails on the code): with the ordering list `["Intro"]`, the titles
`"apple"` and `"Banana"` are both present and unnamed and neither begins with
`.`; the comparator does not return before: it throws. -/
theorem sorter_lexicographic_fallback_throws :
    sorter (some ["Intro"]) ⟨some "apple"⟩ ⟨some "Banana"⟩ = .error .typeError := by
  decide

/-- C7 (fails on the code): with an empty ordering list, comparing the entry
titled `"Guide"` with itself does not return equal: it throws. -/
theorem sorter_self_compare_throws :
    sorter (some []) ⟨some "Guide"⟩ ⟨some "Guide"⟩ = .error .typeError := by
  decide

/-- C8: for every ordering list (a JavaScript array, so shorter than `2 ^ 32`,
or absent) and every three entries `a`, `b`, `c`: if the comparator returns
before for (`a`, `b`) and for (`b`, `c`) it returns before for (`a`, `c`), and if
it returns equal for (`a`, `b`) and for (`b`, `c`) it returns equal for
(`a`, `c`). -/
theorem sorter_transitive (order : Option (List String))
    (hlen : (order.getD []).length < 2 ^ 32) (a b c : Entry) :
    (sorter order a b = .ok (-1) → sorter order b c = .ok (-1) →
        sorter order a c = .ok (-1)) ∧
      (sorter order a b = .ok 0 → sorter order b c = .ok 0 →
        sorter order a c = .ok 0) := by
  simp only [sorter_before_iff order hlen, sorter_equal_iff order hlen]
  generalize indexOf (order.getD []) a.title = i
  generalize indexOf (order.getD []) b.title = j
  generalize indexOf (order.getD []) c.title = k
  cases truthy a.title <;> cases truthy b.title <;> cases truthy c.title <;>
    simp only [Bool.false_eq_true, false_and, and_false, or_false, false_or, true_and,
      and_true, true_or, or_true, ne_eq, imp_self, false_implies, implies_true,
      Bool.true_eq_false, and_self]
  all_goals omega

/-- Witness for C8: `"Intro"` before `"Usage"` before `"Zeta"`
under the list `["Intro", "Usage"]`, and three entries without a title. -/
theorem sorter_transitive_witness :
    ((some ["Intro", "Usage"] : Option (List String)).getD []).length < 2 ^ 32 ∧
      sorter (some ["Intro", "Usage"]) ⟨some "Intro"⟩ ⟨some "Usage"⟩ = .ok (-1) ∧
      sorter (some ["Intro", "Usage"]) ⟨some "Usage"⟩ ⟨some "Zeta"⟩ = .ok (-1) ∧
      sorter (some ["Intro", "Usage"]) ⟨some "Intro"⟩ ⟨some "Zeta"⟩ = .ok (-1) ∧
      sorter (some ["Intro", "Usage"]) ⟨none⟩ ⟨some ""⟩ = .ok 0 ∧
      sorter (some ["Intro", "Usage"]) ⟨some ""⟩ ⟨none⟩ = .ok 0 ∧
      sorter (some ["Intro", "Usage"]) ⟨none⟩ ⟨none⟩ = .ok 0 :=
  ⟨by decide, by decide, by decide,
    (sorter_transitive (some ["Intro", "Usage"]) (by decide)
      ⟨some "Intro"⟩ ⟨some "Usage"⟩ ⟨some "Zeta"⟩).1 (by decide) (by decide),
    by decide, by decide,
    (sorter_transitive (some ["Intro", "Usage"]) (by decide)
      ⟨none⟩ ⟨some ""⟩ ⟨none⟩).2 (by decide) (by decide)⟩

/-! ## Properties of the helpers -/

theorem replaceAll_nil_eq_filter (cls : Char → Bool) (l : List Char) :
    replaceAll cls [] l = l.filter (fun c => !cls c) := by
  induction l with
  | nil => rfl
  | cons c cs ih =>
    by_cases h : cls c = true
    · simp [replaceAll, h, ih]
    · simp [replaceAll, h, ih]

theorem replaceAll_singleton_eq_map (cls : Char → Bool) (r : Char) (l : List Char) :
    replaceAll cls [r] l = l.map (fun c => if cls c then r else c) := by
  induction l with
  | nil => rfl
  | cons c cs ih =>
    by_cases h : cls c = true
    · simp [replaceAll, h, ih]
    · simp [replaceAll, h, ih]

theorem isWhiteSpace_hyphen : isWhiteSpace '-' = false := by decide

theorem isWordChar_hyphen : isWordChar '-' = false := by decide

theorem lowerChar_hyphen : lowerChar '-' = '-' := by decide

theorem toNat_ofNat_of_lt (m : Nat) (h : m < 0xd800) : (Char.ofNat m).toNat = m := by
  have hv : m.isValidChar := Or.inl h
  simp [Char.ofNat, hv, Char.ofNatAux, Char.toNat]
  rfl

theorem lowerChar_ne_hyphen (c : Char) (h : isWordChar c = true) : lowerChar c ≠ '-' := by
  have hc : c ≠ '-' := by
    intro heq
    rw [heq, isWordChar_hyphen] at h
    exact Bool.false_ne_true h
  unfold lowerChar
  split
  · rename_i hu
    intro heq
    have h1 := congrArg Char.toNat heq
    rw [toNat_ofNat_of_lt _ (by omega)] at h1
    have h2 : ('-' : Char).toNat = 45 := by decide
    omega
  · exact hc

theorem count_hyphen_anchor (l : List Char) :
    (toLowerCase
        (replaceAll isWhiteSpace ['-']
          (replaceAll (fun c => !(isWordChar c || isWhiteSpace c)) [] l))).count '-' =
      l.countP isWhiteSpace := by
  induction l with
  | nil => rfl
  | cons c cs ih =>
    unfold toLowerCase at ih ⊢
    simp only [Bool.not_or] at ih
    by_cases hs : isWhiteSpace c = true
    · simp [replaceAll, hs, lowerChar_hyphen, ih]
    · by_cases hw : isWordChar c = true
      · have hne := lowerChar_ne_hyphen c hw
        simp [replaceAll, hs, hw, ih, List.count_cons, hne]
      · simp [replaceAll, hs, hw, ih]

/-- C9 (amended): for every string `s`, `anchor(s)` equals `s` with every
character that is neither a word character nor white space removed, then each
white-space character (not each run) replaced by one `-`, then lowercased; the
result holds as many `-` as `s` holds white-space characters; so
`anchor("Hello, World!")` is `"hello-world"` and `anchor("A  B")` (two spaces)
is `"a--b"`. -/
theorem anchor_replaces_each_white_space (s : String) :
    anchor (.str s) =
        .ok ⟨toLowerCase
          ((s.data.filter (fun c => isWordChar c || isWhiteSpace c)).map
            (fun c => if isWhiteSpace c then '-' else c))⟩ ∧
      ((anchorStr s).data.count '-' = s.data.countP isWhiteSpace) ∧
      anchor (.str "Hello, World!") = .ok "hello-world" ∧
      anchor (.str "A  B") = .ok "a--b" := by
  refine ⟨?_, count_hyphen_anchor s.data, by decide, by decide⟩
  simp [anchor, anchorStr, replaceAll_nil_eq_filter, replaceAll_singleton_eq_map]

/-- C9 as stated fails: on `"A  B"` (two spaces) the helper returns `"a--b"`,
while collapsing the run of white space into a single `-` gives `"a-b"`. -/
theorem anchor_differs_from_collapsing :
    anchor (.str "A  B") = .ok "a--b" ∧ anchorSpec "A  B" = "a-b" ∧
      anchor (.str "A  B") ≠ .ok (anchorSpec "A  B") := by
  decide

theorem headingAt_arr_ok (xs : List JsValue)
    (h : ∀ x ∈ xs, x ≠ JsValue.undefined ∧ x ≠ JsValue.null) (i : Nat) (hi : i < xs.length) :
    ∃ v, headingAt (.arr xs) i = .ok v := by
  have hmem : xs.getD i .undefined ∈ xs := by
    rw [List.getD_eq_getElem _ _ hi]
    exact List.getElem_mem _
  have hx := h _ hmem
  simp only [headingAt]
  split
  · rename_i hv
    exact absurd hv hx.1
  · rename_i hv
    exact absurd hv hx.2
  · exact ⟨_, rfl⟩
  · exact ⟨_, rfl⟩

theorem headingLoop_arr_ok (xs : List JsValue)
    (h : ∀ x ∈ xs, x ≠ JsValue.undefined ∧ x ≠ JsValue.null) (n i : Nat)
    (hin : i + n ≤ xs.length) : ∃ r, headingLoop (.arr xs) n i = .ok r := by
  induction n generalizing i with
  | zero => exact ⟨_, rfl⟩
  | succ n ih =>
    obtain ⟨v, hv⟩ := headingAt_arr_ok xs h i (by omega)
    simp only [headingLoop, hv]
    by_cases hf : notFalse v = true
    · simp [hf]
    · simp only [hf, Bool.false_eq_true, if_false]
      exact ih (i + 1) (by omega)

theorem headingLoop_str_ok (s : String) (n i : Nat) :
    ∃ r, headingLoop (.str s) n i = .ok r := by
  cases n with
  | zero => exact ⟨_, rfl⟩
  | succ n => exact ⟨.fn, rfl⟩

mutual
theorem toStr_ok_iff : (v : JsValue) →
    ((∃ s, toStr v = .ok s) ↔ meetsToStringOwner v = false)
  | .undefined => by simp [toStr, meetsToStringOwner]
  | .null => by simp [toStr, meetsToStringOwner]
  | .bool true => by simp [toStr, meetsToStringOwner]
  | .bool false => by simp [toStr, meetsToStringOwner]
  | .num n => by simp [toStr, meetsToStringOwner]
  | .str s => by simp [toStr, meetsToStringOwner]
  | .arr xs => by
    have h := elemStrs_ok_iff xs
    rw [meetsToStringOwner, ← h, toStr]
    cases elemStrs xs with
    | error e => simp
    | ok ss => simp
  | .obj hd owns => by cases owns <;> simp [toStr, meetsToStringOwner]
theorem elemStrs_ok_iff : (xs : List JsValue) →
    ((∃ ss, elemStrs xs = .ok ss) ↔ anyMeetsToStringOwner xs = false)
  | [] => by simp [elemStrs, anyMeetsToStringOwner]
  | x :: r => by
    have hx := toStr_ok_iff x
    have hr := elemStrs_ok_iff r
    rw [anyMeetsToStringOwner, Bool.or_eq_false_iff, ← hr]
    cases x with
    | undefined =>
      simp only [elemStrs, meetsToStringOwner, true_and]
      cases elemStrs r <;> simp
    | null =>
      simp only [elemStrs, meetsToStringOwner, true_and]
      cases elemStrs r <;> simp
    | bool b =>
      rw [← hx]
      simp only [elemStrs]
      cases toStr (.bool b) <;> cases elemStrs r <;> simp
    | num n =>
      rw [← hx]
      simp only [elemStrs]
      cases toStr (.num n) <;> cases elemStrs r <;> simp
    | str s =>
      rw [← hx]
      simp only [elemStrs]
      cases toStr (.str s) <;> cases elemStrs r <;> simp
    | arr ys =>
      rw [← hx]
      simp only [elemStrs]
      cases toStr (.arr ys) <;> cases elemStrs r <;> simp
    | obj hd owns =>
      rw [← hx]
      simp only [elemStrs]
      cases toStr (.obj hd owns) <;> cases elemStrs r <;> simp
end

theorem toStringMethod_ok_iff (v : JsValue) :
    (∃ s, toStringMethod v = .ok s) ↔
      v ≠ .undefined ∧ v ≠ .null ∧ meetsToStringOwner v = false := by
  have h := toStr_ok_iff v
  cases v with
  | undefined => simp [toStringMethod]
  | null => simp [toStringMethod]
  | bool b => simpa [toStringMethod] using h
  | num n => simpa [toStringMethod] using h
  | str s => simpa [toStringMethod] using h
  | arr xs => simpa [toStringMethod] using h
  | obj hd owns => simpa [toStringMethod] using h

theorem toStringMethod_eq_toStr (v : JsValue) (h1 : v ≠ .undefined) (h2 : v ≠ .null) :
    toStringMethod v = toStr v := by
  cases v with
  | undefined => exact absurd rfl h1
  | null => exact absurd rfl h2
  | bool b => rfl
  | num n => rfl
  | str s => rfl
  | arr xs => rfl
  | obj hd owns => rfl

theorem contains_ok_iff (str patt : JsValue) :
    (∃ r, contains str patt = .ok r) ↔
      str ≠ .undefined ∧ str ≠ .null ∧ meetsToStringOwner str = false ∧
        patt ≠ .undefined ∧ patt ≠ .null ∧ meetsToStringOwner patt = false := by
  constructor
  · rintro ⟨r, hr⟩
    unfold contains at hr
    cases hs : toStringMethod str with
    | error e => rw [hs] at hr; cases hr
    | ok s =>
      cases hp : toStringMethod patt with
      | error e => rw [hs, hp] at hr; cases hr
      | ok p =>
        have h1 := (toStringMethod_ok_iff str).1 ⟨s, hs⟩
        have h2 := (toStringMethod_ok_iff patt).1 ⟨p, hp⟩
        exact ⟨h1.1, h1.2.1, h1.2.2, h2.1, h2.2.1, h2.2.2⟩
  · rintro ⟨h1, h2, h3, h4, h5, h6⟩
    obtain ⟨s, hs⟩ := (toStringMethod_ok_iff str).2 ⟨h1, h2, h3⟩
    obtain ⟨p, hp⟩ := (toStringMethod_ok_iff patt).2 ⟨h4, h5, h6⟩
    unfold contains
    rw [hs, hp]
    by_cases hc : indexOfStr s p ≠ -1
    · exact ⟨.fn, by simp [hc]⟩
    · exact ⟨.inverse, by simp [hc]⟩

theorem inc_ok_iff (v : JsValue) :
    (∃ r, inc v = .ok r) ↔ meetsToStringOwner v = false := by
  rw [← toStr_ok_iff]
  unfold inc parseInt
  cases toStr v with
  | error e => simp
  | ok s => simp

theorem anchor_ok_iff (v : JsValue) : (∃ r, anchor v = .ok r) ↔ ∃ s, v = .str s := by
  cases v <;> simp [anchor]

theorem ifArticlesWithHeading_ok (stack : JsValue) (h1 : stack ≠ .undefined)
    (h2 : stack ≠ .null)
    (h3 : ∀ xs, stack = .arr xs → ∀ x ∈ xs, x ≠ JsValue.undefined ∧ x ≠ JsValue.null) :
    ∃ r, ifArticlesWithHeading stack = .ok r := by
  cases stack with
  | undefined => exact absurd rfl h1
  | null => exact absurd rfl h2
  | bool b => exact ⟨_, rfl⟩
  | num n => exact ⟨_, rfl⟩
  | str s => exact headingLoop_str_ok s _ 0
  | arr xs => exact headingLoop_arr_ok xs (h3 xs rfl) xs.length 0 (by omega)
  | obj hd owns => exact ⟨_, rfl⟩

/-- C10 as stated fails: `anchor` throws on `undefined`, on `null` and on the
number 5; `contains` throws when the haystack is `undefined` or the needle is
`null`; `ifArticlesWithHeading` throws on `undefined` and on the one-element
sequence holding `undefined`; `inc` and `contains` throw on a plain object
that owns a `toString` property, as does `inc` on an array holding one. -/
theorem helpers_throw_on_malformed_input :
    anchor .undefined = .error .typeError ∧
      anchor .null = .error .typeError ∧
      anchor (.num (.int 5)) = .error .typeError ∧
      contains .undefined (.str "a") = .error .typeError ∧
      contains (.str "a") .null = .error .typeError ∧
      ifArticlesWithHeading .undefined = .error .typeError ∧
      ifArticlesWithHeading (.arr [.undefined]) = .error .typeError ∧
      inc (.obj .undefined true) = .error .typeError ∧
      inc (.arr [.num (.int 1), .obj .undefined true]) = .error .typeError ∧
      contains (.obj .undefined true) (.str "a") = .error .typeError := by
  refine ⟨by decide, by decide, by decide, by decide, by decide, by decide, by decide,
    rfl, rfl, by decide⟩

/-- C10 (amended): for every argument value, `ifNotFalse`, `resetCounter`,
`incrementCounter` and `getCounter` return without throwing; `inc` returns
exactly when stringifying its argument meets no plain object that owns a
`toString` property (the argument is no such object and no array holding one,
at any depth); `contains` returns exactly when neither the haystack nor the
needle is `undefined` or `null` and stringifying neither meets such an
object; `anchor` returns exactly when its argument is a string;
`ifArticlesWithHeading` returns whenever its argument is a boolean, a number,
a string, a plain object without a `length` property, or a sequence none of
whose elements is `undefined` or `null`. -/
theorem helpers_return (v p : JsValue) (c : JsNum) :
    ((∃ r, inc v = .ok r) ↔ meetsToStringOwner v = false) ∧
      (∃ r, ifNotFalse v = .ok r) ∧
      (∃ r, resetCounter c = .ok r) ∧
      (∃ r, incrementCounter c = .ok r) ∧
      (∃ r, getCounter c = .ok r) ∧
      ((∃ r, contains v p = .ok r) ↔
        v ≠ .undefined ∧ v ≠ .null ∧ meetsToStringOwner v = false ∧
          p ≠ .undefined ∧ p ≠ .null ∧ meetsToStringOwner p = false) ∧
      ((∃ r, anchor v = .ok r) ↔ ∃ s, v = .str s) ∧
      (v ≠ .undefined → v ≠ .null →
        (∀ xs, v = .arr xs → ∀ x ∈ xs, x ≠ JsValue.undefined ∧ x ≠ JsValue.null) →
        ∃ r, ifArticlesWithHeading v = .ok r) := by
  refine ⟨inc_ok_iff v, ?_, ⟨_, rfl⟩, ⟨_, rfl⟩, ⟨_, rfl⟩, contains_ok_iff v p, anchor_ok_iff v,
    ifArticlesWithHeading_ok v⟩
  unfold ifNotFalse
  cases notFalse v
  · exact ⟨.inverse, rfl⟩
  · exact ⟨.fn, rfl⟩

/-- Witness for the amended C10: the sequence of two entries, one with heading
`false` and one without a heading. -/
theorem helpers_return_witness :
    (JsValue.arr [.obj (.bool false) false, .obj .undefined false] ≠ .undefined ∧
      JsValue.arr [.obj (.bool false) false, .obj .undefined false] ≠ .null ∧
      (∀ xs, JsValue.arr [.obj (.bool false) false, .obj .undefined false] = .arr xs →
        ∀ x ∈ xs, x ≠ JsValue.undefined ∧ x ≠ JsValue.null)) ∧
      ∃ r, ifArticlesWithHeading
        (.arr [.obj (.bool false) false, .obj .undefined false]) = .ok r :=
  have h1 : JsValue.arr [.obj (.bool false) false, .obj .undefined false] ≠ .undefined := by
    intro h; cases h
  have h2 : JsValue.arr [.obj (.bool false) false, .obj .undefined false] ≠ .null := by
    intro h; cases h
  have h3 : ∀ xs, JsValue.arr [.obj (.bool false) false, .obj .undefined false] = .arr xs →
      ∀ x ∈ xs, x ≠ JsValue.undefined ∧ x ≠ JsValue.null := by
    intro xs hxs x hx
    cases hxs
    simp only [List.mem_cons, List.mem_singleton, List.not_mem_nil, or_false] at hx
    rcases hx with hx | hx <;> subst hx <;> exact ⟨(by intro h; cases h), (by intro h; cases h)⟩
  ⟨⟨h1, h2, h3⟩,
    (helpers_return (.arr [.obj (.bool false) false, .obj .undefined false]) (.str "a")
      (.int 0)).2.2.2.2.2.2.2 h1 h2 h3⟩

/-! ## Further properties of the helpers -/

theorem isAnchorChar_lowerChar (c : Char) (h : isWordChar c = true) :
    isAnchorChar (lowerChar c) = true := by
  unfold lowerChar
  split
  · rename_i hu
    unfold isAnchorChar
    rw [toNat_ofNat_of_lt _ (by omega)]
    simp only [Bool.or_eq_true, Bool.and_eq_true, decide_eq_true_eq, beq_iff_eq]
    omega
  · rename_i hu
    unfold isWordChar at h
    unfold isAnchorChar
    simp only [Bool.or_eq_true, Bool.and_eq_true, decide_eq_true_eq, beq_iff_eq] at h ⊢
    omega

theorem isAnchorChar_hyphen : isAnchorChar '-' = true := by decide

theorem all_isAnchorChar_anchor (l : List Char) :
    (toLowerCase
        (replaceAll isWhiteSpace ['-']
          (replaceAll (fun c => !(isWordChar c || isWhiteSpace c)) [] l))).all isAnchorChar
      = true := by
  induction l with
  | nil => rfl
  | cons c cs ih =>
    unfold toLowerCase at ih ⊢
    simp only [Bool.not_or] at ih
    have ih2 : ∀ x ∈ replaceAll isWhiteSpace ['-']
        (replaceAll (fun c => !isWordChar c && !isWhiteSpace c) [] cs),
        isAnchorChar (lowerChar x) = true := by simpa using ih
    by_cases hs : isWhiteSpace c = true
    · simp [replaceAll, hs, lowerChar_hyphen, isAnchorChar_hyphen]
      exact ih2
    · by_cases hw : isWordChar c = true
      · have ha := isAnchorChar_lowerChar c hw
        simp [replaceAll, hs, hw, ha]
        exact ih2
      · simp [replaceAll, hs, hw]
        exact ih2

/-- C11: for every string `s`, `anchor(s)` returns a string every character of
which is a lowercase ASCII letter, an ASCII digit, `_` or `-`. -/
theorem anchor_fragment_safe (s : String) :
    ∃ r, anchor (.str s) = .ok r ∧ r.data.all isAnchorChar = true :=
  ⟨anchorStr s, rfl, all_isAnchorChar_anchor s.data⟩

theorem notFalse_iff (v : JsValue) : notFalse v = true ↔ v ≠ .bool false := by
  cases v with
  | bool b => cases b <;> simp [notFalse]
  | _ => simp [notFalse]

theorem headingLoop_entries (es : List (JsValue × Bool)) (n i : Nat)
    (h : i + n = es.length) :
    headingLoop (.arr (es.map (fun e => .obj e.1 e.2))) n i =
      .ok (if (es.drop i).any (fun e => notFalse e.1) then .fn else .inverse) := by
  induction n generalizing i with
  | zero =>
    have hi : es.length ≤ i := by omega
    simp [headingLoop, List.drop_eq_nil_of_le hi]
  | succ n ih =>
    have hi : i < es.length := by omega
    have hat : headingAt (.arr (es.map (fun e => .obj e.1 e.2))) i = .ok es[i].1 := by
      simp [headingAt, List.getD_eq_getElem, hi]
    rw [headingLoop, hat]
    simp only []
    rw [List.drop_eq_getElem_cons hi, List.any_cons]
    by_cases hf : notFalse es[i].1 = true
    · simp [hf]
    · simp only [hf, Bool.false_eq_true, if_false, Bool.false_or]
      exact ih (i + 1) (by omega)

/-- C15: for every sequence of entries (plain objects, each given by the value
of its `heading`, `undefined` standing for an entry without one, and by
whether it owns a `toString` property), `ifArticlesWithHeading` returns the
rendering of the then-block exactly when some entry has a `heading` other than
the boolean `false`, and returns the rendering of the else-block otherwise;
the empty sequence gives the else-block. -/
theorem ifArticlesWithHeading_entries (es : List (JsValue × Bool)) :
    (ifArticlesWithHeading (.arr (es.map (fun e => .obj e.1 e.2))) = .ok .fn ↔
        ∃ e, e ∈ es ∧ e.1 ≠ JsValue.bool false) ∧
      (ifArticlesWithHeading (.arr (es.map (fun e => .obj e.1 e.2))) = .ok .inverse ↔
        ¬ ∃ e, e ∈ es ∧ e.1 ≠ JsValue.bool false) ∧
      ifArticlesWithHeading (.arr []) = .ok .inverse ∧
      ifArticlesWithHeading (.arr [.obj .undefined false]) = .ok .fn := by
  have hrun : ifArticlesWithHeading (.arr (es.map (fun e => .obj e.1 e.2))) =
      .ok (if es.any (fun e => notFalse e.1) then .fn else .inverse) := by
    have := headingLoop_entries es es.length 0 (by omega)
    simpa [ifArticlesWithHeading, getLength] using this
  have hany : es.any (fun e => notFalse e.1) = true ↔
      ∃ e, e ∈ es ∧ e.1 ≠ JsValue.bool false := by
    simp only [List.any_eq_true, notFalse_iff]
  refine ⟨?_, ?_, rfl, rfl⟩
  · rw [hrun, ← hany]
    by_cases hc : es.any (fun e => notFalse e.1) = true <;> simp [hc]
  · rw [hrun, ← hany]
    by_cases hc : es.any (fun e => notFalse e.1) = true <;> simp [hc]

/-- C16: for every value `v`, `ifNotFalse` returns the rendering of the
else-block exactly when `v` is the boolean `false` and the rendering of the
then-block for every other value, among them `undefined`, `null`, `0`, `NaN`
and the empty string. -/
theorem ifNotFalse_only_false (v : JsValue) :
    (ifNotFalse v = .ok .inverse ↔ v = .bool false) ∧
      (ifNotFalse v = .ok .fn ↔ v ≠ .bool false) ∧
      ifNotFalse .undefined = .ok .fn ∧
      ifNotFalse .null = .ok .fn ∧
      ifNotFalse (.num (.int 0)) = .ok .fn ∧
      ifNotFalse (.num .nan) = .ok .fn ∧
      ifNotFalse (.str "") = .ok .fn := by
  refine ⟨?_, ?_, rfl, rfl, rfl, rfl, rfl⟩
  · unfold ifNotFalse
    by_cases hc : notFalse v = true
    · have := (notFalse_iff v).1 hc
      simp [hc, this]
    · have hv : v = .bool false := by
        by_contra hne
        exact hc ((notFalse_iff v).2 hne)
      subst hv
      simp [notFalse]
  · unfold ifNotFalse
    by_cases hc : notFalse v = true
    · have := (notFalse_iff v).1 hc
      simp [hc, this]
    · have hv : v = .bool false := by
        by_contra hne
        exact hc ((notFalse_iff v).2 hne)
      subst hv
      simp [notFalse]

theorem indexOfStrFrom_eq_neg_one_iff (patt l : List Char) (k : Nat) :
    indexOfStrFrom patt l k = -1 ↔ ¬ patt <:+: l := by
  induction l generalizing k with
  | nil =>
    cases patt with
    | nil => simp [indexOfStrFrom]
    | cons c cs => simp [indexOfStrFrom]
  | cons c cs ih =>
    by_cases hp : patt.isPrefixOf (c :: cs) = true
    · have hpre : patt <+: c :: cs := List.isPrefixOf_iff_prefix.1 hp
      simp only [indexOfStrFrom, hp, if_true]
      constructor
      · intro h; omega
      · intro h; exact absurd hpre.isInfix h
    · have hpre : ¬ patt <+: c :: cs := fun h => hp (List.isPrefixOf_iff_prefix.2 h)
      simp only [indexOfStrFrom, hp, Bool.false_eq_true, if_false]
      rw [ih, List.infix_cons_iff]
      simp [hpre]

/-- C17 as stated fails: with the haystack `undefined` and the empty needle,
with the haystack `"abc"` and the needle `null`, and with a haystack object
that owns a `toString` property, `contains` returns the rendering of neither
block: it throws. -/
theorem contains_throws_without_toString :
    contains .undefined (.str "") = .error .typeError ∧
      contains (.str "abc") .null = .error .typeError ∧
      contains (.obj .undefined true) (.str "a") = .error .typeError := by
  decide

/-- C17 (amended): for every haystack and needle on which `toString()`
returns (neither is `undefined` or `null`, and stringifying neither meets a
plain object that owns a `toString` property), `contains` returns the
rendering of the then-block if the stringified needle occurs as a contiguous
substring of the stringified haystack and the rendering of the else-block
otherwise; with a needle that stringifies to the empty string it is the
then-block. -/
theorem contains_iff_substring (str patt : JsValue)
    (h1 : str ≠ .undefined) (h2 : str ≠ .null) (h3 : meetsToStringOwner str = false)
    (h4 : patt ≠ .undefined) (h5 : patt ≠ .null) (h6 : meetsToStringOwner patt = false) :
    ∃ s p, toStr str = .ok s ∧ toStr patt = .ok p ∧
      contains str patt = .ok (if p <:+: s then .fn else .inverse) ∧
      (p = [] → contains str patt = .ok .fn) := by
  obtain ⟨s, hs⟩ := (toStr_ok_iff str).2 h3
  obtain ⟨p, hp⟩ := (toStr_ok_iff patt).2 h6
  have hrun : contains str patt = .ok (if p <:+: s then .fn else .inverse) := by
    unfold contains
    rw [toStringMethod_eq_toStr str h1 h2, toStringMethod_eq_toStr patt h4 h5, hs, hp]
    simp only [indexOfStr, ne_eq, indexOfStrFrom_eq_neg_one_iff, not_not]
    split <;> rfl
  refine ⟨s, p, hs, hp, hrun, fun he => ?_⟩
  rw [hrun, he]
  simp

/-- Witness for the amended C17: the number `2 ^ 60`, which stringifies to
`1152921504606847000`, searched for `"6976"` and for the empty needle. -/
theorem contains_iff_substring_witness :
    (JsValue.num (.int (2 ^ 60)) ≠ .undefined ∧ JsValue.num (.int (2 ^ 60)) ≠ .null ∧
        meetsToStringOwner (.num (.int (2 ^ 60))) = false ∧
        JsValue.str "6976" ≠ .undefined ∧ JsValue.str "6976" ≠ .null ∧
        meetsToStringOwner (.str "6976") = false) ∧
      (∃ s p, toStr (.num (.int (2 ^ 60))) = .ok s ∧ toStr (.str "6976") = .ok p ∧
        contains (.num (.int (2 ^ 60))) (.str "6976") =
          .ok (if p <:+: s then .fn else .inverse) ∧
        (p = [] → contains (.num (.int (2 ^ 60))) (.str "6976") = .ok .fn)) ∧
      toStr (.num (.int (2 ^ 60))) = .ok "1152921504606847000".data ∧
      contains (.num (.int (2 ^ 60))) (.str "6976") = .ok .inverse ∧
      contains (.num (.int (2 ^ 60))) (.str "") = .ok .fn :=
  ⟨⟨(by intro h; cases h), (by intro h; cases h), rfl,
      (by intro h; cases h), (by intro h; cases h), rfl⟩,
    contains_iff_substring (.num (.int (2 ^ 60))) (.str "6976")
      (by intro h; cases h) (by intro h; cases h) rfl
      (by intro h; cases h) (by intro h; cases h) rfl,
    by decide, by decide, by decide⟩

/-- C18: when the render reports an error, the callback logs it and starts
nothing else, so it deletes nothing and copies nothing; an action that deletes
or copies files is started exactly when the render reported no error, and the
actions then start in the order delete-includes, copy, delete-scratch. -/
theorem buildCallback_failed_render_only_logs (e : String) (err : Option String)
    (delFulfilled : Bool) (ncpErr : Option String) :
    buildCallback (some e) delFulfilled ncpErr = [.log e] ∧
      ((buildCallback err delFulfilled ncpErr).any Effect.isFileOperation = true ↔
        err = none) ∧
      buildCallback none true none =
        [.del "build/tmp/*/**", .ncp "build/tmp//" ".//", .del "build/tmp/**"] := by
  refine ⟨rfl, ?_, by decide⟩
  cases err with
  | none => simp [buildCallback, Effect.isFileOperation]
  | some e2 => simp [buildCallback, Effect.isFileOperation]

theorem string_append_data (a b : String) : (a ++ b).data = a.data ++ b.data := rfl

/-- C19: for every header string and body string, the table renderer returns
the opening of the responsive container and of the styled table, then
`<thead>`, the header, `</thead><tbody>`, the body, and
`</tbody></table></div>`. -/
theorem table_wraps_header_and_body (header body : String) :
    table header body =
      "<div class=\"table-responsive\"><table class=\"table table-bordered table-striped\"><thead>"
        ++ header ++ "</thead><tbody>" ++ body ++ "</tbody></table></div>" := by
  apply String.ext
  simp only [table, string_append_data, List.append_assoc]
  rfl

theorem prepareCollection_idem {ρ : Type} (c : Collection ρ) :
    prepareCollection (prepareCollection c) = prepareCollection c := by
  cases c with
  | mk sb r => cases sb <;> rfl

theorem getItem_updateItem {ρ : Type} (name item : String) (f : Collection ρ → Collection ρ)
    (toc : List (String × Collection ρ)) :
    getItem name (updateItem item f toc) =
      if name = item then (getItem name toc).map f else getItem name toc := by
  induction toc with
  | nil => simp [getItem, updateItem]
  | cons kc t ih =>
    obtain ⟨k, c⟩ := kc
    by_cases hk : k = item
    · by_cases hn : name = item
      · simp [getItem, updateItem, hk, hn]
      · have hn2 : ¬ item = name := fun h => hn h.symm
        simp [getItem, updateItem, hk, hn, hn2]
    · by_cases hn : name = item
      · subst hn
        simp only [if_true] at ih
        simp [getItem, updateItem, hk, ih]
      · by_cases hkn : k = name
        · simp [getItem, updateItem, hk, hkn, hn]
        · simp [getItem, updateItem, hk, hkn, ih, hn]

theorem keys_updateItem {ρ : Type} (item : String) (f : Collection ρ → Collection ρ)
    (toc : List (String × Collection ρ)) :
    (updateItem item f toc).map Prod.fst = toc.map Prod.fst := by
  induction toc with
  | nil => rfl
  | cons kc t ih =>
    obtain ⟨k, c⟩ := kc
    by_cases hk : k = item
    · simp [updateItem, hk]
    · simp [updateItem, hk, ih]

theorem keys_prepareLoop {ρ : Type} (items : List String) (toc : List (String × Collection ρ)) :
    (prepareLoop items toc).map Prod.fst = toc.map Prod.fst := by
  induction items generalizing toc with
  | nil => rfl
  | cons item items ih => rw [prepareLoop, ih, keys_updateItem]

theorem getItem_prepareLoop {ρ : Type} (name : String) (items : List String)
    (toc : List (String × Collection ρ)) :
    getItem name (prepareLoop items toc) =
      if name ∈ items then (getItem name toc).map prepareCollection else getItem name toc := by
  induction items generalizing toc with
  | nil => simp [prepareLoop]
  | cons item items ih =>
    rw [prepareLoop, ih, getItem_updateItem]
    by_cases hn : name = item
    · subst hn
      cases hg : getItem name toc with
      | none => simp
      | some c => simp [prepareCollection_idem]
    · by_cases hm : name ∈ items
      · simp [hn, hm]
      · simp [hn, hm]

theorem getItem_eq_none {ρ : Type} (name : String) (toc : List (String × Collection ρ))
    (h : name ∉ toc.map Prod.fst) : getItem name toc = none := by
  induction toc with
  | nil => rfl
  | cons kc t ih =>
    obtain ⟨k, c⟩ := kc
    simp only [List.map_cons, List.mem_cons, not_or] at h
    have hk : ¬ k = name := fun e => h.1 e.symm
    simp [getItem, hk, ih h.2]

theorem getItem_prepareToc {ρ : Type} (name : String) (toc : List (String × Collection ρ)) :
    getItem name (prepareToc toc) = (getItem name toc).map prepareCollection := by
  unfold prepareToc
  rw [getItem_prepareLoop]
  by_cases hm : name ∈ toc.map Prod.fst
  · simp [hm]
  · simp [hm, getItem_eq_none name toc hm]

/-- C20: for every collections configuration, the prepared configuration has
the same keys in the same order; under every key the collection keeps all its
other fields; its `sortBy` is the comparator built from the former array when
that `sortBy` was an array, and is unchanged when it was absent or another
value. -/
theorem prepareToc_frame {ρ : Type} (toc : List (String × Collection ρ)) (name : String) :
    (prepareToc toc).map Prod.fst = toc.map Prod.fst ∧
      (getItem name toc = none ↔ getItem name (prepareToc toc) = none) ∧
      (∀ c, getItem name toc = some c →
        ∃ d, getItem name (prepareToc toc) = some d ∧ d.rest = c.rest ∧
          (∀ order, c.sortBy = .array order → d.sortBy = .comparator (sorter (some order))) ∧
          ((∀ order, c.sortBy ≠ .array order) → d = c)) := by
  refine ⟨keys_prepareLoop _ _, ?_, ?_⟩
  · rw [getItem_prepareToc]
    cases getItem name toc <;> simp
  · intro c hc
    refine ⟨prepareCollection c, ?_, ?_, ?_, ?_⟩
    · rw [getItem_prepareToc, hc]; rfl
    · cases c with
      | mk sb r => cases sb <;> rfl
    · intro order ho
      cases c with
      | mk sb r =>
        simp only at ho
        subst ho
        rfl
    · intro hno
      cases c with
      | mk sb r =>
        cases sb with
        | array order => exact absurd rfl (hno order)
        | absent => rfl
        | nonArray v => rfl
        | comparator cmp => rfl

/-- Witness for C20: a configuration with the collections `api`, sorted by the
array `["Intro", "Usage"]`, and `misc`, sorted by the string `"date"`. -/
theorem prepareToc_frame_witness :
    (getItem "api"
        [("api", (⟨.array ["Intro", "Usage"], 1⟩ : Collection Nat)),
          ("misc", ⟨.nonArray (.str "date"), 2⟩)] =
        some ⟨.array ["Intro", "Usage"], 1⟩ ∧
      ∃ d, getItem "api"
            (prepareToc [("api", (⟨.array ["Intro", "Usage"], 1⟩ : Collection Nat)),
              ("misc", ⟨.nonArray (.str "date"), 2⟩)]) = some d ∧
          d.rest = 1 ∧ d.sortBy = .comparator (sorter (some ["Intro", "Usage"]))) ∧
      (getItem "misc"
        [("api", (⟨.array ["Intro", "Usage"], 1⟩ : Collection Nat)),
          ("misc", ⟨.nonArray (.str "date"), 2⟩)] =
        some ⟨.nonArray (.str "date"), 2⟩ ∧
      (∀ order, (⟨.nonArray (.str "date"), 2⟩ : Collection Nat).sortBy ≠ .array order) ∧
      ∃ d, getItem "misc"
            (prepareToc [("api", (⟨.array ["Intro", "Usage"], 1⟩ : Collection Nat)),
              ("misc", ⟨.nonArray (.str "date"), 2⟩)]) = some d ∧
          d = ⟨.nonArray (.str "date"), 2⟩) :=
  ⟨⟨rfl,
    by
      obtain ⟨d, h1, h2, h3, _⟩ :=
        (prepareToc_frame
          [("api", (⟨.array ["Intro", "Usage"], 1⟩ : Collection Nat)),
            ("misc", ⟨.nonArray (.str "date"), 2⟩)] "api").2.2
          ⟨.array ["Intro", "Usage"], 1⟩ rfl
      exact ⟨d, h1, h2, h3 _ rfl⟩⟩,
    rfl,
    (by intro order h; cases h),
    by
      obtain ⟨d, h1, _, _, h4⟩ :=
        (prepareToc_frame
          [("api", (⟨.array ["Intro", "Usage"], 1⟩ : Collection Nat)),
            ("misc", ⟨.nonArray (.str "date"), 2⟩)] "misc").2.2
          ⟨.nonArray (.str "date"), 2⟩ rfl
      exact ⟨d, h1, h4 (by intro order h; cases h)⟩⟩

/-! ## Properties of `parseInt` and of the number arithmetic -/

theorem bitLen_le (fuel n k : Nat) (h : n < 2 ^ k) : bitLen fuel n ≤ k := by
  induction fuel generalizing n k with
  | zero => simp [bitLen]
  | succ f ih =>
    unfold bitLen
    split
    · omega
    · rename_i hn
      cases k with
      | zero => simp at h; exact absurd h hn
      | succ k =>
        have h2 : n / 2 < 2 ^ k := by
          rw [pow_succ] at h
          omega
        have := ih (n / 2) k h2
        omega

theorem roundNat_of_lt (n : Nat) (h : n < 2 ^ 53) : roundNat n = n := by
  have hb := bitLen_le n n 53 h
  simp [roundNat, hb]

theorem ofInt_of_lt (z : Int) (h : z.natAbs < 2 ^ 53) : ofInt z = .int z := by
  have hb := bitLen_le z.natAbs z.natAbs 53 h
  have hb2 : ¬ 1024 < bitLen z.natAbs z.natAbs := by omega
  simp only [ofInt, roundNat_of_lt _ h, hb2, if_false]
  congr 1
  split <;> omega

/-- A decimal digit character. -/
theorem isRadixDigit_of_dec (c : Char) (h : 48 ≤ c.toNat ∧ c.toNat ≤ 57) :
    isRadixDigit 10 c = true ∧ digitValue c = some (c.toNat - 48) ∧
      isWhiteSpace c = false ∧ c ≠ '-' ∧ c ≠ '+' ∧ c ≠ 'x' ∧ c ≠ 'X' := by
  have hd : digitValue c = some (c.toNat - 48) := by simp [digitValue, h]
  refine ⟨?_, hd, ?_, ?_, ?_, ?_, ?_⟩
  · simp only [isRadixDigit, hd, decide_eq_true_eq]; omega
  · simp only [isWhiteSpace, Bool.or_eq_false_iff, Bool.and_eq_false_iff, decide_eq_false_iff_not,
      beq_eq_false_iff_ne, ne_eq]
    omega
  all_goals
    intro he
    rw [he] at h
    revert h
    decide

theorem digitChar_toNat (d : Nat) (h : d < 10) : (digitChar d).toNat = 48 + d := by
  unfold digitChar
  exact toNat_ofNat_of_lt _ (by omega)

theorem decimalAux_shape (fuel n : Nat) (acc : List Char) :
    ∃ pre, decimalAux fuel n acc = pre ++ acc ∧
      (∀ c ∈ pre, 48 ≤ c.toNat ∧ c.toNat ≤ 57) ∧ (fuel ≠ 0 → pre ≠ []) := by
  induction fuel generalizing n acc with
  | zero => exact ⟨[], rfl, by simp, by simp⟩
  | succ f ih =>
    have hd : 48 ≤ (digitChar (n % 10)).toNat ∧ (digitChar (n % 10)).toNat ≤ 57 := by
      rw [digitChar_toNat _ (Nat.mod_lt _ (by decide))]
      omega
    unfold decimalAux
    by_cases hz : n / 10 = 0
    · refine ⟨[digitChar (n % 10)], by simp [hz], ?_, by simp⟩
      intro c hc
      rw [List.mem_singleton] at hc
      rw [hc]; exact hd
    · obtain ⟨pre, h1, h2, _⟩ := ih (n / 10) (digitChar (n % 10) :: acc)
      refine ⟨pre ++ [digitChar (n % 10)], by simp [hz, h1], ?_, by simp⟩
      intro c hc
      rcases List.mem_append.1 hc with h | h
      · exact h2 c h
      · rw [List.mem_singleton] at h
        rw [h]; exact hd

theorem decimal_shape (n : Nat) :
    decimal n ≠ [] ∧ ∀ c ∈ decimal n, 48 ≤ c.toNat ∧ c.toNat ≤ 57 := by
  obtain ⟨pre, h1, h2, h3⟩ := decimalAux_shape (n + 1) n []
  unfold decimal
  rw [h1, List.append_nil]
  exact ⟨h3 (by omega), h2⟩

theorem foldl_decimalAux (fuel n : Nat) (acc : List Char) (h : n < fuel) :
    (decimalAux fuel n acc).foldl (fun a c => a * 10 + (digitValue c).getD 0) 0 =
      acc.foldl (fun a c => a * 10 + (digitValue c).getD 0) n := by
  induction fuel generalizing n acc with
  | zero => omega
  | succ f ih =>
    have hd : (digitValue (digitChar (n % 10))).getD 0 = n % 10 := by
      have ht := digitChar_toNat (n % 10) (Nat.mod_lt _ (by decide))
      have := (isRadixDigit_of_dec (digitChar (n % 10)) (by omega)).2.1
      rw [this, ht]
      simp
    unfold decimalAux
    by_cases hz : n / 10 = 0
    · simp only [hz, if_true, List.foldl_cons, hd]
      congr 1
      omega
    · simp only [hz, if_false]
      rw [ih (n / 10) _ (by omega)]
      simp only [List.foldl_cons, hd]
      congr 1
      omega

theorem digitsValue_decimal (n : Nat) : digitsValue 10 (decimal n) = n := by
  unfold digitsValue decimal
  rw [foldl_decimalAux (n + 1) n [] (by omega)]
  rfl

theorem parseIntStr_digits (l : List Char) (hne : l ≠ [])
    (hall : ∀ c ∈ l, 48 ≤ c.toNat ∧ c.toNat ≤ 57) :
    parseIntStr l = ofInt (digitsValue 10 l) ∧
      parseIntStr ('-' :: l) = ofInt (-(digitsValue 10 l : Nat)) := by
  obtain ⟨c, t, rfl⟩ := List.exists_cons_of_ne_nil hne
  have hc := isRadixDigit_of_dec c (hall c (List.mem_cons_self _ _))
  have htake : List.takeWhile (isRadixDigit 10) (c :: t) = c :: t := by
    rw [List.takeWhile_eq_self_iff]
    intro x hx
    exact (isRadixDigit_of_dec x (hall x hx)).1
  have hhex : (match c :: t with
      | '0' :: 'x' :: _ => true
      | '0' :: 'X' :: _ => true
      | _ => false) = false := by
    split
    · rename_i tl heq
      have : 'x' ∈ c :: t := by rw [heq]; simp
      have := hall _ this
      revert this; decide
    · rename_i tl heq
      have : 'X' ∈ c :: t := by rw [heq]; simp
      have := hall _ this
      revert this; decide
    · rfl
  have hm : c ≠ '-' := hc.2.2.2.1
  have hp : c ≠ '+' := hc.2.2.2.2.1
  constructor
  · simp only [parseIntStr, List.dropWhile_cons, hc.2.2.1, Bool.false_eq_true, if_false,
      List.head?_cons, Option.some.injEq, hm, hp, or_self, hhex, htake, List.isEmpty_cons,
      decide_False]
  · have hws : isWhiteSpace '-' = false := isWhiteSpace_hyphen
    simp only [parseIntStr, List.dropWhile_cons, hws, Bool.false_eq_true, if_false,
      List.head?_cons, true_or, if_true, List.tail_cons, hhex, htake, List.isEmpty_cons,
      decide_True]

theorem digitChar_eq (d : Nat) (h : d < 10) : digitChar d = Nat.digitChar d := by
  interval_cases d <;> decide

theorem decimalAux_eq_toDigitsCore (fuel n : Nat) (acc : List Char) :
    decimalAux fuel n acc = Nat.toDigitsCore 10 fuel n acc := by
  induction fuel generalizing n acc with
  | zero => rfl
  | succ f ih =>
    unfold decimalAux Nat.toDigitsCore
    simp only [digitChar_eq _ (Nat.mod_lt n (by decide : 0 < 10)), ih]

theorem decimal_eq_repr (n : Nat) : decimal n = (Nat.repr n).data := by
  unfold decimal Nat.repr Nat.toDigits
  rw [decimalAux_eq_toDigitsCore]
  rfl

theorem numToString_large :
    numToString (.int (2 ^ 53)) = "9007199254740992".data ∧
      numToString (.int (2 ^ 53 + 2)) = "9007199254740994".data ∧
      numToString (.int (2 ^ 60)) = "1152921504606847000".data ∧
      numToString (.int (2 ^ 64)) = "18446744073709552000".data ∧
      numToString (.int (-(2 ^ 64))) = "-18446744073709552000".data ∧
      numToString (.int (10 ^ 21)) = "1e+21".data ∧
      numToString (.int (2 ^ 70)) = "1.1805916207174113e+21".data ∧
      numToString (ofInt (10 ^ 23)) = "1e+23".data := by
  refine ⟨by decide, by decide, by decide, by decide, by decide, by decide, by decide,
    by decide⟩

theorem natToString_of_lt (m : Nat) (h : m < 2 ^ 53) : natToString m = decimal m := by
  unfold natToString
  rw [if_pos h]

theorem numToString_int (n : Int) (hb : n.natAbs < 2 ^ 53) :
    numToString (.int n) = (toString n).data := by
  cases n with
  | ofNat m =>
    have h : ¬ (Int.ofNat m < 0) := by simp
    have hm : m < 2 ^ 53 := by simpa using hb
    have hn : (Int.ofNat m).natAbs = m := rfl
    simp only [numToString, h, if_false, hn, natToString_of_lt m hm, decimal_eq_repr]
    rfl
  | negSucc m =>
    have h : Int.negSucc m < 0 := Int.negSucc_lt_zero m
    have hm : m + 1 < 2 ^ 53 := by simpa using hb
    have hn : (Int.negSucc m).natAbs = m + 1 := rfl
    simp only [numToString, h, if_true, hn, natToString_of_lt (m + 1) hm, decimal_eq_repr]
    rfl

theorem parseIntStr_numToString (n : Int) (hb : n.natAbs < 2 ^ 53) :
    parseIntStr (numToString (.int n)) = ofInt n := by
  have hs := decimal_shape n.natAbs
  have hp := parseIntStr_digits (decimal n.natAbs) hs.1 hs.2
  rw [digitsValue_decimal] at hp
  by_cases hn : n < 0
  · simp only [numToString, hn, if_true, natToString_of_lt _ hb]
    rw [hp.2]
    congr 1
    omega
  · simp only [numToString, hn, if_false, natToString_of_lt _ hb]
    rw [hp.1]
    congr 1
    omega

theorem add1_parseIntStr_numeral (n : Int) (h : |n| < 2 ^ 53 - 1) :
    add1 (parseIntStr (numToString (.int n))) = .int (n + 1) := by
  rw [abs_lt] at h
  rw [parseIntStr_numToString n (by omega), ofInt_of_lt n (by omega)]
  simp only [add1]
  exact ofInt_of_lt (n + 1) (by omega)

/-- C12: for every integer `n` with `|n| < 2 ^ 53 - 1`, `inc` applied to the
decimal numeral of `n` (the string `toString n`) or to the number `n` itself
returns exactly `n + 1`; `inc("5")` is `6`. -/
theorem inc_adds_one (n : Int) (h : |n| < 2 ^ 53 - 1) :
    inc (.str (toString n)) = .ok (.num (.int (n + 1))) ∧
      inc (.num (.int n)) = .ok (.num (.int (n + 1))) := by
  have hrun := add1_parseIntStr_numeral n h
  have hb : n.natAbs < 2 ^ 53 := by
    rw [abs_lt] at h
    omega
  constructor
  · simp only [inc, parseInt, toStr, ← numToString_int n hb, hrun]
  · simp only [inc, parseInt, toStr, hrun]

/-- Witness for C12: the numeral `"5"` and the number `5`. -/
theorem inc_adds_one_witness :
    |(5 : Int)| < 2 ^ 53 - 1 ∧
      inc (.str "5") = .ok (.num (.int 6)) ∧ inc (.num (.int 5)) = .ok (.num (.int 6)) :=
  ⟨by decide, inc_adds_one 5 (by decide)⟩

theorem dec_of_isRadixDigit (c : Char) (h : isRadixDigit 10 c = true) :
    48 ≤ c.toNat ∧ c.toNat ≤ 57 := by
  unfold isRadixDigit digitValue at h
  by_contra hc
  simp only [hc, if_false] at h
  split_ifs at h <;> simp only [decide_eq_true_eq] at h <;> omega

theorem hexPrefix_false_or (u : List Char) :
    (match u with
      | '0' :: 'x' :: _ => true
      | '0' :: 'X' :: _ => true
      | _ => false) = false ∨ u.head? = some '0' := by
  split
  · right; rfl
  · right; rfl
  · left; rfl

theorem parseIntStr_nan (l : List Char)
    (h1 : ∀ c, (l.dropWhile isWhiteSpace).head? = some c → ¬ (48 ≤ c.toNat ∧ c.toNat ≤ 57))
    (h2 : (l.dropWhile isWhiteSpace).head? = some '-' ∨
        (l.dropWhile isWhiteSpace).head? = some '+' →
      ∀ c, (l.dropWhile isWhiteSpace).tail.head? = some c →
        ¬ (48 ≤ c.toNat ∧ c.toNat ≤ 57)) :
    parseIntStr l = .nan := by
  unfold parseIntStr
  simp only []
  generalize l.dropWhile isWhiteSpace = t at h1 h2
  have hu : ∀ c, (if t.head? = some '-' ∨ t.head? = some '+' then t.tail else t).head? = some c →
      ¬ (48 ≤ c.toNat ∧ c.toNat ≤ 57) := by
    intro c hc
    split at hc
    · rename_i hsign
      exact h2 hsign c hc
    · exact h1 c hc
  generalize (if t.head? = some '-' ∨ t.head? = some '+' then t.tail else t) = u at hu
  have hzero : u.head? ≠ some '0' := fun h => hu _ h (by decide)
  have hhex := (hexPrefix_false_or u).resolve_right hzero
  have htake : List.takeWhile (isRadixDigit 10) u = [] := by
    cases u with
    | nil => rfl
    | cons c t2 =>
      have hc : isRadixDigit 10 c = false := by
        by_contra hne
        have ht : isRadixDigit 10 c = true := by simpa using hne
        exact hu c rfl (dec_of_isRadixDigit c ht)
      simp [List.takeWhile, hc]
  simp [hhex, htake]

/-- C13 as stated fails: `"12px"` is not the numeral of a number, yet `inc`
yields the number 13 on it, not `NaN`. -/
theorem inc_digit_prefix_is_a_number :
    inc (.str "12px") = .ok (.num (.int 13)) ∧ inc (.str "12px") ≠ .ok (.num .nan) := by
  have h1 : inc (.str "12px") = .ok (.num (.int 13)) := rfl
  refine ⟨h1, ?_⟩
  intro h
  rw [h1] at h
  cases h

/-- C13 (amended): for every string that, after its leading white space, starts
neither with a decimal digit nor with a sign followed by a decimal digit, such
as `"-x"`, `inc` returns `NaN` and does not throw; `"abc"` is such a string. -/
theorem inc_nan_without_digits (s : String)
    (h1 : ∀ c, (s.data.dropWhile isWhiteSpace).head? = some c →
      ¬ (48 ≤ c.toNat ∧ c.toNat ≤ 57))
    (h2 : (s.data.dropWhile isWhiteSpace).head? = some '-' ∨
        (s.data.dropWhile isWhiteSpace).head? = some '+' →
      ∀ c, (s.data.dropWhile isWhiteSpace).tail.head? = some c →
        ¬ (48 ≤ c.toNat ∧ c.toNat ≤ 57)) :
    inc (.str s) = .ok (.num .nan) ∧ inc (.str "abc") = .ok (.num .nan) := by
  refine ⟨?_, rfl⟩
  simp only [inc, parseInt, toStr, parseIntStr_nan s.data h1 h2, add1]

/-- Witness for the amended C13: the string `"-x"`. -/
theorem inc_nan_without_digits_witness :
    (∀ c, ("-x".data.dropWhile isWhiteSpace).head? = some c →
        ¬ (48 ≤ c.toNat ∧ c.toNat ≤ 57)) ∧
      (("-x".data.dropWhile isWhiteSpace).head? = some '-' ∨
          ("-x".data.dropWhile isWhiteSpace).head? = some '+' →
        ∀ c, ("-x".data.dropWhile isWhiteSpace).tail.head? = some c →
          ¬ (48 ≤ c.toNat ∧ c.toNat ≤ 57)) ∧
      (inc (.str "-x") = .ok (.num .nan) ∧ inc (.str "abc") = .ok (.num .nan)) :=
  have h1 : ∀ c, ("-x".data.dropWhile isWhiteSpace).head? = some c →
      ¬ (48 ≤ c.toNat ∧ c.toNat ≤ 57) := by
    intro c hc
    have h : ("-x".data.dropWhile isWhiteSpace).head? = some '-' := by decide
    rw [h] at hc
    rw [← Option.some.inj hc]
    decide
  have h2 : ("-x".data.dropWhile isWhiteSpace).head? = some '-' ∨
        ("-x".data.dropWhile isWhiteSpace).head? = some '+' →
      ∀ c, ("-x".data.dropWhile isWhiteSpace).tail.head? = some c →
        ¬ (48 ≤ c.toNat ∧ c.toNat ≤ 57) := by
    intro _ c hc
    have h : ("-x".data.dropWhile isWhiteSpace).tail.head? = some 'x' := by decide
    rw [h] at hc
    rw [← Option.some.inj hc]
    decide
  ⟨h1, h2, inc_nan_without_digits "-x" h1 h2⟩

/-! ## Properties of the counter -/

theorem add1_int_of_lt (k : Nat) (h : k < 2 ^ 53) : add1 (.int (k : Int)) = .int ((k + 1 : Nat) : Int) := by
  by_cases hk : k + 1 < 2 ^ 53
  · simp only [add1]
    rw [ofInt_of_lt _ (by omega)]
    rfl
  · have hk2 : k = 2 ^ 53 - 1 := by omega
    subst hk2
    decide

theorem add1_int_max : add1 (.int ((2 ^ 53 : Nat) : Int)) = .int ((2 ^ 53 : Nat) : Int) := by
  decide

theorem add1_int_min (k : Nat) :
    add1 (.int ((min k (2 ^ 53) : Nat) : Int)) = .int ((min (k + 1) (2 ^ 53) : Nat) : Int) := by
  by_cases hk : k < 2 ^ 53
  · rw [Nat.min_eq_left (by omega), Nat.min_eq_left (by omega)]
    exact add1_int_of_lt k hk
  · rw [Nat.min_eq_right (by omega), Nat.min_eq_right (by omega)]
    exact add1_int_max

theorem counterAfter_eq (history : List CounterCall) (k : Nat) :
    counterAfter history (.int ((min k (2 ^ 53) : Nat) : Int)) =
      .ok (.int ((min (sinceReset k history) (2 ^ 53) : Nat) : Int)) := by
  induction history generalizing k with
  | nil => rfl
  | cons call t ih =>
    cases call with
    | resetCounter =>
      have h0 := ih 0
      rw [Nat.min_eq_left (Nat.zero_le _)] at h0
      simp only [counterAfter, callCounter, resetCounter, sinceReset]
      exact h0
    | incrementCounter =>
      simp only [counterAfter, callCounter, incrementCounter, sinceReset, add1_int_min]
      exact ih (k + 1)
    | getCounter =>
      simp only [counterAfter, callCounter, getCounter, sinceReset]
      exact ih k

theorem counterAfter_initial (history : List CounterCall) :
    counterAfter history initialCounter =
      .ok (.int ((min (sinceReset 0 history) (2 ^ 53) : Nat) : Int)) := by
  have h := counterAfter_eq history 0
  rw [Nat.min_eq_left (Nat.zero_le _)] at h
  exact h

theorem sinceReset_replicate (k n : Nat) :
    sinceReset k (List.replicate n .incrementCounter) = k + n := by
  induction n generalizing k with
  | zero => rfl
  | succ n ih =>
    rw [List.replicate_succ, sinceReset, ih]
    omega

/-- C14 as stated fails: after `resetCounter` and `2 ^ 53 + 1` calls of
`incrementCounter`, `getCounter` returns `2 ^ 53`, one less than the number of
increments: `2 ^ 53 + 1` is no Number, and `++counter` rounds back to
`2 ^ 53`. -/
theorem counter_saturates :
    sinceReset 0 (.resetCounter :: List.replicate (2 ^ 53 + 1) .incrementCounter)
        = 2 ^ 53 + 1 ∧
      ∃ c, counterAfter (.resetCounter :: List.replicate (2 ^ 53 + 1) .incrementCounter)
            initialCounter = .ok c ∧
          getCounter c = .ok (.num (.int (2 ^ 53)), c) := by
  have hs : sinceReset 0 (.resetCounter :: List.replicate (2 ^ 53 + 1) .incrementCounter)
      = 2 ^ 53 + 1 := by
    rw [sinceReset, sinceReset_replicate]
    omega
  refine ⟨hs, _, counterAfter_initial _, ?_⟩
  rw [hs, Nat.min_eq_right (by omega)]
  rfl

/-- C14 (amended): for every finite sequence of counter calls made from the
initial state, with `k` the number of `incrementCounter` calls since the most
recent `resetCounter` (or since the start): if `k` is at most `2 ^ 53`, a
`getCounter` made next returns `k` and leaves the counter unchanged; if `k` is
below `2 ^ 53`, an `incrementCounter` made next returns `k + 1` and leaves the
counter at `k + 1`; in particular `resetCounter` followed by `n` calls of
`incrementCounter`, `n` at most `2 ^ 53`, gives `getCounter() = n`. -/
theorem counter_counts_increments (history : List CounterCall) (n : Nat)
    (h : sinceReset 0 history ≤ 2 ^ 53) (hn : n ≤ 2 ^ 53) :
    (∃ c, counterAfter history initialCounter = .ok c ∧
        getCounter c = .ok (.num (.int (sinceReset 0 history)), c) ∧
        (sinceReset 0 history < 2 ^ 53 →
          incrementCounter c =
            .ok (.num (.int (sinceReset 0 history + 1)), .int (sinceReset 0 history + 1)))) ∧
      ∃ c, counterAfter (.resetCounter :: List.replicate n .incrementCounter) initialCounter
            = .ok c ∧
          getCounter c = .ok (.num (.int n), c) := by
  constructor
  · refine ⟨_, counterAfter_initial history, ?_, ?_⟩
    · rw [Nat.min_eq_left h]
      rfl
    · intro hlt
      rw [Nat.min_eq_left h]
      simp only [incrementCounter, add1_int_of_lt _ hlt]
      rfl
  · have hs : sinceReset 0 (.resetCounter :: List.replicate n .incrementCounter) = n := by
      rw [sinceReset, sinceReset_replicate]
      omega
    refine ⟨_, counterAfter_initial _, ?_⟩
    rw [hs, Nat.min_eq_left hn]
    rfl

/-- Witness for the amended C14: `resetCounter`, three calls of
`incrementCounter` with a `getCounter` in between, and `n = 3`. -/
theorem counter_counts_increments_witness :
    sinceReset 0 [.resetCounter, .incrementCounter, .getCounter, .incrementCounter,
        .incrementCounter] ≤ 2 ^ 53 ∧
      3 ≤ 2 ^ 53 ∧
      sinceReset 0 [.resetCounter, .incrementCounter, .getCounter, .incrementCounter,
        .incrementCounter] = 3 ∧
      ∃ c, counterAfter (.resetCounter :: List.replicate 3 .incrementCounter) initialCounter
            = .ok c ∧
          getCounter c = .ok (.num (.int 3), c) :=
  ⟨by decide, by decide, by decide,
    (counter_counts_increments
      [.resetCounter, .incrementCounter, .getCounter, .incrementCounter, .incrementCounter]
      3 (by decide) (by decide)).2⟩

end GenerateHtml
